/-
Verification of the distributed coordination layer (agent registry, RPC
service, load balancer, fault recovery, state synchronizer).

The Python classes are shallowly embedded: each class becomes a structure
holding the fields the operations touch, each method becomes a pure function
threading the state explicitly.  Python dicts (which preserve insertion order
and update keys in place) are embedded as association lists with the
`getA`/`setA`/`eraseA` operations below; wall-clock readings
(`datetime.now()`, `time.time()`) are passed in as explicit integer
parameters; `uuid.uuid4()` outputs are modelled as caller-supplied or
counter-generated identifiers, with freshness recorded where the reasoning
needs it.
-/
import Mathlib

namespace Mind

/-! ## Association lists standing in for Python dicts -/

/-- `d.get(k)` on a Python dict. -/
def getA {α : Type} : List (String × α) → String → Option α
  | [], _ => none
  | (k, v) :: t, key => if k = key then some v else getA t key

/-- `d[k] = v` on a Python dict: updates the key in place if present
(preserving its position, as Python dicts do), otherwise appends. -/
def setA {α : Type} : List (String × α) → String → α → List (String × α)
  | [], key, v => [(key, v)]
  | (k, w) :: t, key, v =>
    if k = key then (key, v) :: t else (k, w) :: setA t key v

/-- `del d[k]` on a Python dict (no error if the key is absent, matching the
guarded deletes in the source). -/
def eraseA {α : Type} : List (String × α) → String → List (String × α)
  | [], _ => []
  | (k, v) :: t, key => if k = key then t else (k, v) :: eraseA t key

@[simp] theorem getA_nil {α : Type} (k : String) : getA ([] : List (String × α)) k = none := rfl

theorem getA_setA_self {α : Type} (l : List (String × α)) (k : String) (v : α) :
    getA (setA l k v) k = some v := by
  induction l with
  | nil => simp [getA, setA]
  | cons h t ih =>
    obtain ⟨k0, v0⟩ := h
    by_cases hk : k0 = k <;> simp [getA, setA, hk, ih]

theorem getA_setA_ne {α : Type} (l : List (String × α)) (k k' : String) (v : α)
    (h : k ≠ k') : getA (setA l k v) k' = getA l k' := by
  induction l with
  | nil => simp [getA, setA, h]
  | cons hd t ih =>
    obtain ⟨k0, v0⟩ := hd
    by_cases hk : k0 = k
    · subst hk
      simp [getA, setA, h]
    · simp only [setA, if_neg hk, getA]
      by_cases hk2 : k0 = k' <;> simp [hk2, ih]

theorem getA_eraseA_self {α : Type} (l : List (String × α)) (k : String)
    (hnd : (l.map Prod.fst).Nodup) : getA (eraseA l k) k = none := by
  induction l with
  | nil => simp [eraseA]
  | cons hd t ih =>
    obtain ⟨k0, v0⟩ := hd
    simp only [List.map_cons, List.nodup_cons] at hnd
    by_cases hk : k0 = k
    · subst hk
      simp only [eraseA, if_pos rfl]
      -- k is not a key of t, so lookup fails
      clear ih
      induction t with
      | nil => simp
      | cons hd2 t2 ih2 =>
        obtain ⟨k1, v1⟩ := hd2
        simp only [List.map_cons, List.mem_cons, List.nodup_cons] at hnd
        have hk1 : k1 ≠ k0 := fun h => hnd.1 (Or.inl h.symm)
        simp only [getA, if_neg hk1]
        exact ih2 ⟨fun h => hnd.1 (Or.inr h), hnd.2.2⟩
    · simp only [eraseA, if_neg hk, getA, if_neg hk]
      exact ih hnd.2

theorem getA_eraseA_ne {α : Type} (l : List (String × α)) (k k' : String)
    (h : k ≠ k') : getA (eraseA l k) k' = getA l k' := by
  induction l with
  | nil => simp [eraseA]
  | cons hd t ih =>
    obtain ⟨k0, v0⟩ := hd
    by_cases hk : k0 = k
    · subst hk
      simp [eraseA, getA, h]
    · simp only [eraseA, if_neg hk, getA]
      by_cases hk2 : k0 = k' <;> simp [hk2, ih]

/-- Apply a function to every value of an association list. -/
def mapVal {α β : Type} (f : α → β) (l : List (String × α)) : List (String × β) :=
  l.map (fun p => (p.1, f p.2))

theorem getA_mapVal {α β : Type} (f : α → β) (l : List (String × α)) (k : String) :
    getA (mapVal f l) k = (getA l k).map f := by
  induction l with
  | nil => rfl
  | cons hd t ih =>
    obtain ⟨k0, v0⟩ := hd
    simp only [mapVal] at ih ⊢
    by_cases hk : k0 = k
    · simp [getA, hk]
    · simp only [List.map_cons, getA, if_neg hk]
      exact ih

theorem keys_mapVal {α β : Type} (f : α → β) (l : List (String × α)) :
    (mapVal f l).map Prod.fst = l.map Prod.fst := by
  induction l with
  | nil => rfl
  | cons hd t ih => simp [mapVal, ih]

theorem mem_keys_setA {α : Type} (l : List (String × α)) (k k' : String) (v : α) :
    k' ∈ (setA l k v).map Prod.fst ↔ k' ∈ l.map Prod.fst ∨ k' = k := by
  induction l with
  | nil => simp [setA]
  | cons hd t ih =>
    obtain ⟨k0, v0⟩ := hd
    by_cases hk : k0 = k
    · subst hk
      simp [setA]
      tauto
    · simp only [setA, if_neg hk, List.map_cons, List.mem_cons, ih]
      tauto

theorem nodupKeys_setA {α : Type} (l : List (String × α)) (k : String) (v : α)
    (h : (l.map Prod.fst).Nodup) : ((setA l k v).map Prod.fst).Nodup := by
  induction l with
  | nil => simp [setA]
  | cons hd t ih =>
    obtain ⟨k0, v0⟩ := hd
    simp only [List.map_cons, List.nodup_cons] at h
    by_cases hk : k0 = k
    · subst hk
      simpa [setA] using h
    · simp only [setA, if_neg hk, List.map_cons, List.nodup_cons]
      refine ⟨fun hmem => ?_, ih h.2⟩
      rcases (mem_keys_setA t k k0 v).mp hmem with h2 | h2
      · exact h.1 h2
      · exact hk h2

theorem mem_keys_eraseA {α : Type} (l : List (String × α)) (k k' : String)
    (h : k' ∈ (eraseA l k).map Prod.fst) : k' ∈ l.map Prod.fst := by
  induction l with
  | nil => exact absurd h (by simp [eraseA])
  | cons hd t ih =>
    obtain ⟨k0, v0⟩ := hd
    by_cases hk : k0 = k
    · subst hk
      simp only [eraseA, if_pos rfl] at h
      simp only [List.map_cons, List.mem_cons]
      exact Or.inr h
    · simp only [eraseA, if_neg hk, List.map_cons, List.mem_cons] at h
      simp only [List.map_cons, List.mem_cons]
      rcases h with h | h
      · exact Or.inl h
      · exact Or.inr (ih h)

theorem nodupKeys_eraseA {α : Type} (l : List (String × α)) (k : String)
    (h : (l.map Prod.fst).Nodup) : ((eraseA l k).map Prod.fst).Nodup := by
  induction l with
  | nil => simp [eraseA]
  | cons hd t ih =>
    obtain ⟨k0, v0⟩ := hd
    simp only [List.map_cons, List.nodup_cons] at h
    by_cases hk : k0 = k
    · subst hk
      simp only [eraseA, if_pos rfl]
      exact h.2
    · simp only [eraseA, if_neg hk, List.map_cons, List.nodup_cons]
      exact ⟨fun hmem => h.1 (mem_keys_eraseA t k k0 hmem), ih h.2⟩

/-! ## Fault recovery (`src/mind/distributed/fault_recovery.py`)

Claims C2 and C4.  Wall-clock readings are embedded as integer second
counts; `elapsed = (datetime.now() - last_failure).total_seconds()` becomes
integer subtraction of the recorded failure time from the current reading. -/

/-- `CircuitState` enum. -/
inductive CircuitState where
  | closed
  | open_
  | half_open
  deriving DecidableEq

/-- `CircuitBreakerState` dataclass (timestamps as integer seconds). -/
structure CircuitBreakerState where
  agent_id : String
  state : CircuitState := .closed
  failure_count : Nat := 0
  success_count_since_open : Nat := 0
  last_failure_time : Option Int := none
  last_success_time : Option Int := none
  deriving DecidableEq

/-- `Failure` dataclass (the fields the claims touch). -/
structure Failure where
  failure_id : Nat
  agent_id : String
  error_type : String
  error_message : String
  timestamp : Int
  deriving DecidableEq

/-- `FaultRecovery` object state.  `uuid.uuid4()` failure ids are modelled by
the counter `next_failure_id`. -/
structure FaultRecovery where
  failure_threshold : Nat := 5
  reset_timeout : Int := 60
  recovery_timeout : Int := 30
  failures : List (String × Failure) := []
  circuit_breakers : List (String × CircuitBreakerState) := []
  next_failure_id : Nat := 0
  deriving DecidableEq

/-- Fresh `FaultRecovery` (no prior failure log on disk). -/
def initFaultRecovery (threshold : Nat := 5) (reset : Int := 60) : FaultRecovery :=
  { failure_threshold := threshold, reset_timeout := reset }

/-- The breaker for `agent_id`, defaulting to a fresh closed breaker exactly as
`self.circuit_breakers[agent_id] = CircuitBreakerState(agent_id=agent_id)` does. -/
def getBreaker (fr : FaultRecovery) (agent_id : String) : CircuitBreakerState :=
  (getA fr.circuit_breakers agent_id).getD { agent_id := agent_id }

/-- `FaultRecovery.register_failure` (current time passed explicitly). -/
def registerFailure (fr : FaultRecovery) (agent_id error_type error_message : String)
    (now : Int) : Nat × FaultRecovery :=
  let failure_id := fr.next_failure_id
  let failure : Failure :=
    { failure_id := failure_id, agent_id := agent_id, error_type := error_type,
      error_message := error_message, timestamp := now }
  let cb := getBreaker fr agent_id
  let cb := { cb with failure_count := cb.failure_count + 1, last_failure_time := some now }
  let cb :=
    if cb.failure_count ≥ fr.failure_threshold ∧ cb.state = CircuitState.closed then
      { cb with state := CircuitState.open_ }
    else cb
  (failure_id,
   { fr with
      failures := setA fr.failures (toString failure_id) failure,
      circuit_breakers := setA fr.circuit_breakers agent_id cb,
      next_failure_id := fr.next_failure_id + 1 })

/-- `FaultRecovery.record_success`. -/
def recordSuccess (fr : FaultRecovery) (agent_id : String) (now : Int) : FaultRecovery :=
  let cb := getBreaker fr agent_id
  let cb := { cb with last_success_time := some now }
  let cb :=
    if cb.state = CircuitState.half_open then
      let cb := { cb with success_count_since_open := cb.success_count_since_open + 1 }
      if cb.success_count_since_open ≥ 3 then
        { cb with state := CircuitState.closed, failure_count := 0,
                  success_count_since_open := 0 }
      else cb
    else if cb.state = CircuitState.closed then
      -- `max(0, cb.failure_count - 1)` is truncated subtraction on Nat
      { cb with failure_count := cb.failure_count - 1 }
    else cb
  { fr with circuit_breakers := setA fr.circuit_breakers agent_id cb }

/-- `FaultRecovery.is_agent_healthy`: returns the boolean and the (possibly
mutated) system, since the open→half_open flip happens inside this query. -/
def isAgentHealthy (fr : FaultRecovery) (agent_id : String) (now : Int) :
    Bool × FaultRecovery :=
  match getA fr.circuit_breakers agent_id with
  | none => (true, fr)
  | some cb =>
    if cb.state = CircuitState.open_ then
      match cb.last_failure_time with
      | some t =>
        if now - t > fr.reset_timeout then
          let cb := { cb with state := CircuitState.half_open,
                              success_count_since_open := 0 }
          (true, { fr with circuit_breakers := setA fr.circuit_breakers agent_id cb })
        else (false, fr)
      | none => (false, fr)
    else (true, fr)

/-- `FaultRecovery.can_retry`. -/
def canRetry (fr : FaultRecovery) (agent_id : String) (retry_count : Nat) (now : Int) :
    Bool × FaultRecovery :=
  if retry_count ≥ 3 then (false, fr)
  else isAgentHealthy fr agent_id now

/-- `FaultRecovery.attempt_recovery`: the registered recovery strategy is an
arbitrary callable, so whether one is registered and whether it raises are
inputs to the model. -/
def attemptRecovery (fr : FaultRecovery) (agent_id : String)
    (has_strategy strategy_succeeds : Bool) (now : Int) : Bool × FaultRecovery :=
  if ¬has_strategy then (false, fr)
  else if strategy_succeeds then (true, recordSuccess fr agent_id now)
  else (false, fr)

/-- One externally triggered call into `FaultRecovery`. -/
inductive FREvent where
  | fail (agent_id error_type error_message : String) (now : Int)
  | success (agent_id : String) (now : Int)
  | health (agent_id : String) (now : Int)
  | retry (agent_id : String) (retry_count : Nat) (now : Int)
  | recover (agent_id : String) (has_strategy strategy_succeeds : Bool) (now : Int)

/-- Effect of one call on the `FaultRecovery` state. -/
def frStep (fr : FaultRecovery) : FREvent → FaultRecovery
  | .fail a t m now => (registerFailure fr a t m now).2
  | .success a now => recordSuccess fr a now
  | .health a now => (isAgentHealthy fr a now).2
  | .retry a c now => (canRetry fr a c now).2
  | .recover a h s now => (attemptRecovery fr a h s now).2

/-- The state after a sequence of calls. -/
def frRun (fr : FaultRecovery) : List FREvent → FaultRecovery
  | [] => fr
  | e :: es => frRun (frStep fr e) es

/-- Circuit state of an agent's breaker (a breaker not yet created counts as
closed, which is exactly how the code treats an unknown agent). -/
def breakerState (fr : FaultRecovery) (a : String) : CircuitState :=
  (getBreaker fr a).state

/-- The transition relation claimed for the breaker: staying put, or one of
closed→open, open→half_open, half_open→closed, half_open→open. -/
def allowedTransition : CircuitState → CircuitState → Bool
  | .closed, .closed => true
  | .closed, .open_ => true
  | .open_, .open_ => true
  | .open_, .half_open => true
  | .half_open, .half_open => true
  | .half_open, .closed => true
  | .half_open, .open_ => true
  | _, _ => false

theorem allowedTransition_refl (s : CircuitState) : allowedTransition s s = true := by
  cases s <;> rfl

theorem registerFailure_allowed (fr : FaultRecovery) (b t m : String) (now : Int)
    (a : String) :
    allowedTransition (breakerState fr a)
      (breakerState (registerFailure fr b t m now).2 a) = true := by
  by_cases hab : b = a
  · subst hab
    simp only [registerFailure, breakerState, getBreaker, getA_setA_self,
      Option.getD_some]
    split
    · rename_i hcond
      -- the circuit opens: the precondition requires the state to be closed
      have : ((getA fr.circuit_breakers b).getD { agent_id := b }).state =
          CircuitState.closed := hcond.2
      rw [this]
      rfl
    · exact allowedTransition_refl _
  · simp only [registerFailure, breakerState, getBreaker,
      getA_setA_ne _ _ _ _ hab]
    exact allowedTransition_refl _

theorem recordSuccess_allowed (fr : FaultRecovery) (b : String) (now : Int)
    (a : String) :
    allowedTransition (breakerState fr a)
      (breakerState (recordSuccess fr b now) a) = true := by
  by_cases hab : b = a
  · subst hab
    simp only [recordSuccess, breakerState, getBreaker, getA_setA_self,
      Option.getD_some]
    split
    · rename_i hhalf
      split
      · rw [hhalf]; rfl
      · rw [hhalf]; exact allowedTransition_refl _
    · split
      · rename_i hne hclosed
        rw [hclosed]; rfl
      · exact allowedTransition_refl _
  · simp only [recordSuccess, breakerState, getBreaker,
      getA_setA_ne _ _ _ _ hab]
    exact allowedTransition_refl _

theorem isAgentHealthy_allowed (fr : FaultRecovery) (b : String) (now : Int)
    (a : String) :
    allowedTransition (breakerState fr a)
      (breakerState (isAgentHealthy fr b now).2 a) = true := by
  simp only [isAgentHealthy, breakerState]
  cases hcb : getA fr.circuit_breakers b with
  | none => exact allowedTransition_refl _
  | some cb =>
    simp only
    split
    · rename_i hopen
      cases hlf : cb.last_failure_time with
      | none => exact allowedTransition_refl _
      | some t =>
        simp only
        split
        · by_cases hab : b = a
          · subst hab
            simp only [getBreaker, getA_setA_self, Option.getD_some, hcb, hopen]
            rfl
          · simp only [getBreaker, getA_setA_ne _ _ _ _ hab]
            exact allowedTransition_refl _
        · exact allowedTransition_refl _
    · exact allowedTransition_refl _

/-- Every single call moves every agent's breaker along an allowed edge. -/
theorem frStep_allowed (fr : FaultRecovery) (e : FREvent) (a : String) :
    allowedTransition (breakerState fr a) (breakerState (frStep fr e) a) = true := by
  cases e with
  | fail b t m now => exact registerFailure_allowed fr b t m now a
  | success b now => exact recordSuccess_allowed fr b now a
  | health b now => exact isAgentHealthy_allowed fr b now a
  | retry b c now =>
    simp only [frStep, canRetry]
    split
    · exact allowedTransition_refl _
    · exact isAgentHealthy_allowed fr b now a
  | recover b h s now =>
    simp only [frStep, attemptRecovery]
    split
    · exact allowedTransition_refl _
    · split
      · exact recordSuccess_allowed fr b now a
      · exact allowedTransition_refl _

/-- C2: In every state reachable by any sequence of `register_failure`,
`record_success`, `is_agent_healthy`, `can_retry`, and `attempt_recovery`
calls, a circuit breaker's state changes only along closed→open,
open→half_open, half_open→closed or half_open→open (or stays put); in
particular it never moves directly from closed to half_open. -/
theorem circuit_breaker_transitions (threshold : Nat) (reset : Int)
    (es : List FREvent) (e : FREvent) (a : String) :
    allowedTransition
        (breakerState (frRun (initFaultRecovery threshold reset) es) a)
        (breakerState (frStep (frRun (initFaultRecovery threshold reset) es) e) a)
      = true ∧
    ¬(breakerState (frRun (initFaultRecovery threshold reset) es) a
        = CircuitState.closed ∧
      breakerState (frStep (frRun (initFaultRecovery threshold reset) es) e) a
        = CircuitState.half_open) := by
  refine ⟨frStep_allowed _ _ _, ?_⟩
  rintro ⟨h1, h2⟩
  have := frStep_allowed (frRun (initFaultRecovery threshold reset) es) e a
  rw [h1, h2] at this
  exact Bool.noConfusion this

/-- `n` consecutive `register_failure` calls for one agent (all carrying the
same clock reading, which the lifecycle claim allows). -/
def failN (a t m : String) (now : Int) (fr : FaultRecovery) : Nat → FaultRecovery
  | 0 => fr
  | n + 1 => (registerFailure (failN a t m now fr n) a t m now).2

/-- `n` consecutive `record_success` calls for one agent. -/
def succN (a : String) (now : Int) (fr : FaultRecovery) : Nat → FaultRecovery
  | 0 => fr
  | n + 1 => recordSuccess (succN a now fr n) a now

theorem failN_config (a t m : String) (now : Int) (fr : FaultRecovery) (n : Nat) :
    (failN a t m now fr n).failure_threshold = fr.failure_threshold ∧
    (failN a t m now fr n).reset_timeout = fr.reset_timeout := by
  induction n with
  | zero => exact ⟨rfl, rfl⟩
  | succ n ih => simpa [failN, registerFailure] using ih

theorem failN_breaker_lt (thr : Nat) (reset : Int) (a t m : String) (now : Int) :
    ∀ k, k < thr →
      getA (failN a t m now (initFaultRecovery thr reset) k).circuit_breakers a
        = if k = 0 then none
          else some { agent_id := a, state := CircuitState.closed, failure_count := k,
                      success_count_since_open := 0, last_failure_time := some now,
                      last_success_time := none } := by
  intro k
  induction k with
  | zero => intro _; simp [failN, initFaultRecovery]
  | succ k ih =>
    intro hk
    have hklt : k < thr := Nat.lt_of_succ_lt hk
    have hthr := (failN_config a t m now (initFaultRecovery thr reset) k).1
    have hthr0 : (initFaultRecovery thr reset).failure_threshold = thr := rfl
    simp only [failN, registerFailure, getBreaker, ih hklt, hthr, hthr0]
    have hopen : ¬(k + 1 ≥ thr) := Nat.not_le_of_lt hk
    by_cases hk0 : k = 0
    · subst hk0
      simp [getA_setA_self, hopen]
    · simp [hk0, getA_setA_self, hopen]

theorem failN_breaker_opens (thr : Nat) (reset : Int) (a t m : String) (now : Int)
    (hthr : 0 < thr) :
    getA (failN a t m now (initFaultRecovery thr reset) thr).circuit_breakers a
      = some { agent_id := a, state := CircuitState.open_, failure_count := thr,
               success_count_since_open := 0, last_failure_time := some now,
               last_success_time := none } := by
  obtain ⟨k, rfl⟩ : ∃ k, thr = k + 1 := ⟨thr - 1, (Nat.succ_pred_eq_of_pos hthr).symm⟩
  have hlt : k < k + 1 := Nat.lt_succ_self k
  have hprev := failN_breaker_lt (k + 1) reset a t m now k hlt
  have hthreq := (failN_config a t m now (initFaultRecovery (k + 1) reset) k).1
  simp only [failN, registerFailure, getBreaker, hprev, hthreq]
  by_cases hk0 : k = 0
  · subst hk0
    simp [getA_setA_self, initFaultRecovery]
  · simp [hk0, getA_setA_self, initFaultRecovery]

/-- C4: from a fresh breaker, `failure_threshold` consecutive failures open the
circuit; once more than `reset_timeout` seconds have passed since the last
failure, the next `is_agent_healthy` call returns true and flips the breaker to
half_open; three consecutive `record_success` calls then close it and reset the
failure count to 0. -/
theorem circuit_breaker_lifecycle (thr : Nat) (reset : Int) (a t m : String)
    (now1 now2 : Int) (hthr : 0 < thr) (helapsed : now2 - now1 > reset) :
    breakerState (failN a t m now1 (initFaultRecovery thr reset) thr) a
      = CircuitState.open_ ∧
    (isAgentHealthy (failN a t m now1 (initFaultRecovery thr reset) thr) a now2).1
      = true ∧
    breakerState
        (isAgentHealthy (failN a t m now1 (initFaultRecovery thr reset) thr) a now2).2
        a
      = CircuitState.half_open ∧
    breakerState
        (succN a now2
          (isAgentHealthy (failN a t m now1 (initFaultRecovery thr reset) thr) a
            now2).2 3)
        a
      = CircuitState.closed ∧
    (getBreaker
        (succN a now2
          (isAgentHealthy (failN a t m now1 (initFaultRecovery thr reset) thr) a
            now2).2 3)
        a).failure_count
      = 0 := by
  have hcb := failN_breaker_opens thr reset a t m now1 hthr
  have hreset : (failN a t m now1 (initFaultRecovery thr reset) thr).reset_timeout
      = reset :=
    (failN_config a t m now1 (initFaultRecovery thr reset) thr).2
  have h1 : breakerState (failN a t m now1 (initFaultRecovery thr reset) thr) a
      = CircuitState.open_ := by
    simp [breakerState, getBreaker, hcb]
  set cbHalf : CircuitBreakerState :=
    { agent_id := a, state := CircuitState.half_open, failure_count := thr,
      success_count_since_open := 0, last_failure_time := some now1,
      last_success_time := none } with hcbHalf
  have hprobe : isAgentHealthy (failN a t m now1 (initFaultRecovery thr reset) thr)
        a now2
      = (true,
         { failN a t m now1 (initFaultRecovery thr reset) thr with
            circuit_breakers :=
              setA (failN a t m now1
                  (initFaultRecovery thr reset) thr).circuit_breakers a cbHalf }) := by
    simp [isAgentHealthy, hcb, hreset, helapsed, hcbHalf]
  refine ⟨h1, ?_, ?_, ?_, ?_⟩
  · rw [hprobe]
  · rw [hprobe]
    simp [breakerState, getBreaker, getA_setA_self]
  · rw [hprobe]
    simp [succN, recordSuccess, breakerState, getBreaker, getA_setA_self]
  · rw [hprobe]
    simp [succN, recordSuccess, getBreaker, getA_setA_self]

/-- Witness for `circuit_breaker_lifecycle` at threshold 2, reset timeout 60,
failure time 0, probe time 61. -/
theorem circuit_breaker_lifecycle_witness :
    (0 < 2 ∧ (61 : Int) - 0 > 60) ∧
    (let fr1 := failN "a1" "err" "msg" 0 (initFaultRecovery 2 60) 2
     let probe := isAgentHealthy fr1 "a1" 61
     let fr3 := succN "a1" 61 probe.2 3
     breakerState fr1 "a1" = CircuitState.open_ ∧
     probe.1 = true ∧
     breakerState probe.2 "a1" = CircuitState.half_open ∧
     breakerState fr3 "a1" = CircuitState.closed ∧
     (getBreaker fr3 "a1").failure_count = 0) :=
  ⟨⟨by decide, by decide⟩,
   circuit_breaker_lifecycle 2 60 "a1" "err" "msg" 0 61 (by decide) (by decide)⟩

/-! ## State synchronization (`src/mind/distributed/state_sync.py`)

Claims C1 and C10.  The store is generic in the value type `V` (Python
`Any`).  The SHA-256 checksum of a value is embedded as the value itself: the
code only ever compares checksums for equality, and hashing is injective for
the purposes of this model.  `uuid.uuid4()` change ids become a counter, and
the `changes` dict (keyed by those always-fresh ids) becomes an append list. -/

/-- `StateVersion` dataclass. -/
structure StateVersion (V : Type) where
  key : String
  current_version : Int := 0
  modified_by : String := ""
  value : Option V := none
  checksum : Option V := none
  deriving DecidableEq

/-- `StateChange` dataclass. -/
structure StateChange (V : Type) where
  change_id : Nat
  agent_id : String
  version : Int
  key : String
  old_value : Option V := none
  new_value : Option V := none
  propagated : Bool := false
  replicas : List String := []
  deriving DecidableEq

/-- `StateSync` object state. -/
structure StateSync (V : Type) where
  agent_id : String
  local_state : List (String × V) := []
  state_versions : List (String × StateVersion V) := []
  changes : List (StateChange V) := []
  replicas : List (String × List (String × V)) := []
  next_change_id : Nat := 0
  deriving DecidableEq

/-- Fresh `StateSync` (no persisted state on disk). -/
def initStateSync {V : Type} (agent_id : String) : StateSync V :=
  { agent_id := agent_id }

/-- `StateSync.set_state`. -/
def setState {V : Type} (s : StateSync V) (key : String) (value : V) :
    Nat × StateSync V :=
  let change_id := s.next_change_id
  let old_value := getA s.local_state key
  let version_info := (getA s.state_versions key).getD { key := key }
  let version_info :=
    { version_info with
        current_version := version_info.current_version + 1,
        modified_by := s.agent_id,
        value := some value,
        checksum := some value }
  let change : StateChange V :=
    { change_id := change_id, agent_id := s.agent_id,
      version := version_info.current_version, key := key,
      old_value := old_value, new_value := some value }
  (change_id,
   { s with
      state_versions := setA s.state_versions key version_info,
      changes := s.changes ++ [change],
      local_state := setA s.local_state key value,
      next_change_id := s.next_change_id + 1 })

/-- `StateSync.get_state`. -/
def getState {V : Type} (s : StateSync V) (key : String) : Option V :=
  getA s.local_state key

/-- `StateSync.sync_state`. -/
def syncState {V : Type} (s : StateSync V) (key : String) (value : V)
    (version : Int) (source_agent_id : String) : Bool × StateSync V :=
  let rejected : Bool :=
    match getA s.state_versions key with
    | some vi => decide (version ≤ vi.current_version)
    | none => false
  if rejected then (false, s)
  else
    let s1 := (setState s key value).2
    let replica := (getA s1.replicas source_agent_id).getD []
    (true,
     { s1 with replicas := setA s1.replicas source_agent_id (setA replica key value) })

/-- The version the store knows locally for a key, 0 when the key was never
written locally (matching the `StateVersion` default). -/
def localVersion {V : Type} (s : StateSync V) (key : String) : Int :=
  ((getA s.state_versions key).map StateVersion.current_version).getD 0

/-- Counterexample to C1 as stated: on a store that never wrote `"k"` (so the
claim's locally-known version is 0), `sync_state("k", 42, 0, "src")` carries
version 0 ≤ 0 yet is accepted — the code skips the version gate entirely when
the key has no local version record. -/
theorem sync_state_fresh_key_zero_accepted :
    getA (initStateSync "me" : StateSync Int).state_versions "k" = none ∧
    (syncState (initStateSync "me" : StateSync Int) "k" 42 0 "src").1 = true ∧
    getA (syncState (initStateSync "me" : StateSync Int) "k" 42 0 "src").2.local_state "k"
      = some 42 :=
  ⟨rfl, rfl, rfl⟩

theorem syncState_accepted_parts {V : Type} (s : StateSync V) (key : String)
    (value : V) (version : Int) (src : String)
    (hgt : ∀ vi, getA s.state_versions key = some vi → version > vi.current_version) :
    (syncState s key value version src).1 = true ∧
    getA (syncState s key value version src).2.local_state key = some value ∧
    getA ((getA (syncState s key value version src).2.replicas src).getD []) key
      = some value ∧
    Option.map StateVersion.current_version
        (getA (syncState s key value version src).2.state_versions key)
      = some (localVersion s key + 1) := by
  cases hvi : getA s.state_versions key with
  | none =>
    refine ⟨?_, ?_, ?_, ?_⟩ <;>
      simp [syncState, setState, hvi, localVersion, getA_setA_self]
  | some vi =>
    have hnle : ¬(version ≤ vi.current_version) := not_le.mpr (hgt vi hvi)
    refine ⟨?_, ?_, ?_, ?_⟩ <;>
      simp [syncState, setState, hvi, localVersion, getA_setA_self,
        decide_eq_false hnle]

/-- C1 (amended): if the key has a local version record and the incoming
version is ≤ it, `sync_state` returns false and leaves the entire state
untouched; if the key has no local version record, or the incoming version is
strictly greater, it returns true, stores the value locally, and records the
source agent as a replica holding the value. -/
theorem sync_state_version_gate {V : Type} (s : StateSync V) (key : String)
    (value : V) (version : Int) (src : String) :
    ((∃ vi, getA s.state_versions key = some vi ∧ version ≤ vi.current_version) →
      syncState s key value version src = (false, s)) ∧
    ((∀ vi, getA s.state_versions key = some vi → version > vi.current_version) →
      (syncState s key value version src).1 = true ∧
      getA (syncState s key value version src).2.local_state key = some value ∧
      getA ((getA (syncState s key value version src).2.replicas src).getD []) key
        = some value) := by
  constructor
  · rintro ⟨vi, hvi, hle⟩
    simp [syncState, hvi, hle]
  · intro hgt
    obtain ⟨h1, h2, h3, _⟩ := syncState_accepted_parts s key value version src hgt
    exact ⟨h1, h2, h3⟩

/-- Witness for `sync_state_version_gate`: after a local `set_state("k", 5)`
the key has version 1; a sync at version 1 is rejected unchanged, and a sync
at version 2 is accepted, stored, and tracked for the source replica. -/
theorem sync_state_version_gate_witness :
    (syncState (setState (initStateSync "me" : StateSync Int) "k" 5).2 "k" 7 1 "src"
      = (false, (setState (initStateSync "me" : StateSync Int) "k" 5).2)) ∧
    ((syncState (setState (initStateSync "me" : StateSync Int) "k" 5).2 "k" 7 2 "src").1
      = true) := by
  constructor
  · exact (sync_state_version_gate
      (setState (initStateSync "me" : StateSync Int) "k" 5).2 "k" 7 1 "src").1
      ⟨{ key := "k", current_version := 1, modified_by := "me",
         value := some 5, checksum := some 5 }, rfl, by decide⟩
  · exact ((sync_state_version_gate
      (setState (initStateSync "me" : StateSync Int) "k" 5).2 "k" 7 2 "src").2
      (by intro vi hvi;
          cases hvi;
          decide)).1

theorem syncState_accepted_not_rejected {V : Type} (s : StateSync V) (key : String)
    (value : V) (version : Int) (src : String)
    (h : (syncState s key value version src).1 = true) :
    (match getA s.state_versions key with
      | some vi => decide (version ≤ vi.current_version)
      | none => false) = false := by
  by_contra hne
  have hrej : (match getA s.state_versions key with
      | some vi => decide (version ≤ vi.current_version)
      | none => false) = true := by
    cases hb : (match getA s.state_versions key with
      | some vi => decide (version ≤ vi.current_version)
      | none => false) with
    | false => exact absurd hb hne
    | true => rfl
  rw [syncState, hrej] at h
  exact Bool.noConfusion h

/-- C10: an accepted `sync_state` stores `previous local version + 1` (via the
internal `set_state`), not the supplied version; so when the supplied version
exceeds the previous local version by more than 1, the stored version ends
strictly below the supplied one, and a later sync carrying any version strictly
between the two is accepted as well. -/
theorem sync_state_version_plus_one {V : Type} (s : StateSync V) (key : String)
    (value value2 : V) (version : Int) (src src2 : String)
    (haccept : (syncState s key value version src).1 = true) :
    localVersion (syncState s key value version src).2 key = localVersion s key + 1 ∧
    (version > localVersion s key + 1 →
      localVersion (syncState s key value version src).2 key < version ∧
      (∀ w : Int, localVersion s key + 1 < w → w < version →
        (syncState (syncState s key value version src).2 key value2 w src2).1 = true)) := by
  have hrej := syncState_accepted_not_rejected s key value version src haccept
  have hgt : ∀ vi, getA s.state_versions key = some vi →
      version > vi.current_version := by
    intro vi hvi
    rw [hvi] at hrej
    simpa using hrej
  obtain ⟨-, -, -, hver⟩ := syncState_accepted_parts s key value version src hgt
  have hmain : localVersion (syncState s key value version src).2 key
      = localVersion s key + 1 := by
    unfold localVersion
    rw [hver]
    rfl
  refine ⟨hmain, fun hgap => ⟨by omega, ?_⟩⟩
  intro w hw _
  have hgt2 : ∀ vi, getA (syncState s key value version src).2.state_versions key
      = some vi → w > vi.current_version := by
    intro vi hvi
    rw [hvi] at hver
    simp at hver
    omega
  exact (syncState_accepted_parts (syncState s key value version src).2 key value2
    w src2 hgt2).1

/-- Witness for `sync_state_version_plus_one`: a fresh store accepts a sync at
version 5; the stored version is 1 (= 0 + 1) < 5, and a follow-up sync at
version 3 (strictly between 1 and 5) is accepted again. -/
theorem sync_state_version_plus_one_witness :
    ((syncState (initStateSync "me" : StateSync Int) "k" 9 5 "src").1 = true) ∧
    localVersion (syncState (initStateSync "me" : StateSync Int) "k" 9 5 "src").2 "k"
      = localVersion (initStateSync "me" : StateSync Int) "k" + 1 ∧
    (syncState (syncState (initStateSync "me" : StateSync Int) "k" 9 5 "src").2
        "k" 11 3 "s2").1 = true := by
  have h := sync_state_version_plus_one (initStateSync "me" : StateSync Int)
    "k" 9 11 5 "src" "s2" (by decide)
  exact ⟨by decide, h.1, (h.2 (by decide)).2 3 (by decide) (by decide)⟩

/-! ## Agent network (`src/mind/distributed/agent_network.py`)

Claims C5 and C6.  Python `set`s of peer ids are embedded as duplicate-free
lists with membership-guarded insertion (`addPeer`); `uuid.uuid4()` agent ids
are inputs whose freshness is recorded in the reachability relation. -/

/-- `AgentInfo` dataclass (timestamps as integer seconds, status as the
string the code stores: "active", "inactive" or "failed"). -/
structure AgentInfo where
  agent_id : String
  name : String
  host : String
  port : Int
  capabilities : List String := []
  status : String := "active"
  registered_at : Int
  last_heartbeat : Int
  deriving DecidableEq

/-- `NetworkTopology` dataclass. -/
structure NetworkTopology where
  timestamp : Int
  agents : List (String × AgentInfo)
  connections : List (String × List String)
  active_agents : List String
  failed_agents : List String
  deriving DecidableEq

/-- `AgentNetwork` object state. -/
structure AgentNetwork where
  network_name : String := "default"
  agents : List (String × AgentInfo) := []
  connections : List (String × List String) := []
  heartbeat_timeout : Int := 30
  deriving DecidableEq

/-- Fresh `AgentNetwork` (no roster file on disk). -/
def initNetwork (name : String) : AgentNetwork :=
  { network_name := name }

/-- `AgentNetwork.register_agent`; the fresh `uuid.uuid4()` agent id and the
clock reading are inputs. -/
def registerAgent (net : AgentNetwork) (agent_id name host : String) (port : Int)
    (capabilities : List String) (now : Int) : AgentNetwork :=
  let agent : AgentInfo :=
    { agent_id := agent_id, name := name, host := host, port := port,
      capabilities := capabilities, registered_at := now, last_heartbeat := now }
  { net with
      agents := setA net.agents agent_id agent,
      connections := setA net.connections agent_id [] }

/-- `AgentNetwork.deregister_agent`. -/
def deregisterAgent (net : AgentNetwork) (agent_id : String) : Bool × AgentNetwork :=
  match getA net.agents agent_id with
  | none => (false, net)
  | some _ =>
    (true,
     { net with
        agents := eraseA net.agents agent_id,
        connections :=
          mapVal (fun peers => peers.filter (fun p => p ≠ agent_id))
            (eraseA net.connections agent_id) })

/-- `AgentNetwork.heartbeat` (the status write is unconditional in effect:
the code writes "active" whenever the status differs). -/
def heartbeat (net : AgentNetwork) (agent_id : String) (now : Int) :
    Bool × AgentNetwork :=
  match getA net.agents agent_id with
  | none => (false, net)
  | some agent =>
    (true,
     { net with
        agents := setA net.agents agent_id
          { agent with last_heartbeat := now, status := "active" } })

/-- `set.add` on a Python set embedded as a duplicate-free list. -/
def addPeer (l : List String) (x : String) : List String :=
  if x ∈ l then l else l ++ [x]

/-- `AgentNetwork.connect_agents`. -/
def connectAgents (net : AgentNetwork) (a b : String) : Bool × AgentNetwork :=
  if getA net.agents a = none ∨ getA net.agents b = none then (false, net)
  else
    -- `if id not in self.connections: self.connections[id] = set()`, twice
    let c1 := setA net.connections a ((getA net.connections a).getD [])
    let c2 := setA c1 b ((getA c1 b).getD [])
    let c3 := setA c2 a (addPeer ((getA c2 a).getD []) b)
    let c4 := setA c3 b (addPeer ((getA c3 b).getD []) a)
    (true, { net with connections := c4 })

/-- `AgentNetwork._is_heartbeat_healthy` (timestamps are always well-formed in
the model, so the ValueError branch does not arise). -/
def heartbeatHealthy (net : AgentNetwork) (agent : AgentInfo) (now : Int) : Bool :=
  now - agent.last_heartbeat < net.heartbeat_timeout

/-- `AgentNetwork.get_topology`: demotes stale active agents, then snapshots. -/
def getTopology (net : AgentNetwork) (now : Int) : NetworkTopology × AgentNetwork :=
  let agents2 := mapVal (fun ag =>
      if heartbeatHealthy net ag now = false ∧ ag.status = "active"
      then { ag with status := "failed" } else ag) net.agents
  let active := agents2.filterMap
    (fun p => if p.2.status = "active" then some p.2.agent_id else none)
  let failed := agents2.filterMap
    (fun p => if p.2.status = "failed" then some p.2.agent_id else none)
  ({ timestamp := now, agents := agents2, connections := net.connections,
     active_agents := active, failed_agents := failed },
   { net with agents := agents2 })

/-- The peer set the network stores for an agent (empty when absent). -/
def peersOf (net : AgentNetwork) (a : String) : List String :=
  (getA net.connections a).getD []

/-- States reachable from a fresh network through the public operations; the
hypothesis on `reg` models that `uuid.uuid4()` never repeats an id. -/
inductive NetReachable : AgentNetwork → Prop where
  | init (name : String) : NetReachable (initNetwork name)
  | reg {net : AgentNetwork} (h : NetReachable net) (agent_id name host : String)
      (port : Int) (capabilities : List String) (now : Int)
      (hfresh : getA net.agents agent_id = none) :
      NetReachable (registerAgent net agent_id name host port capabilities now)
  | dereg {net : AgentNetwork} (h : NetReachable net) (agent_id : String) :
      NetReachable (deregisterAgent net agent_id).2
  | conn {net : AgentNetwork} (h : NetReachable net) (a b : String) :
      NetReachable (connectAgents net a b).2
  | hb {net : AgentNetwork} (h : NetReachable net) (agent_id : String) (now : Int) :
      NetReachable (heartbeat net agent_id now).2
  | topo {net : AgentNetwork} (h : NetReachable net) (now : Int) :
      NetReachable (getTopology net now).2

/-- The structural invariant the operations maintain: symmetric peer sets,
no peers for unregistered ids, duplicate-free dict keys, and each agent
record keyed by its own id. -/
structure NetInv (net : AgentNetwork) : Prop where
  sym : ∀ a b, b ∈ peersOf net a ↔ a ∈ peersOf net b
  unreg : ∀ a, getA net.agents a = none → peersOf net a = []
  connKeys : (net.connections.map Prod.fst).Nodup
  agentKeys : (net.agents.map Prod.fst).Nodup
  keyField : ∀ k ag, getA net.agents k = some ag → ag.agent_id = k

theorem mem_addPeer (l : List String) (x y : String) :
    y ∈ addPeer l x ↔ y ∈ l ∨ y = x := by
  unfold addPeer
  split
  · rename_i hmem
    constructor
    · exact Or.inl
    · rintro (h | rfl)
      · exact h
      · exact hmem
  · simp

theorem peersOf_registerAgent (net : AgentNetwork) (agent_id name host : String)
    (port : Int) (capabilities : List String) (now : Int) (x : String) :
    peersOf (registerAgent net agent_id name host port capabilities now) x
      = if x = agent_id then [] else peersOf net x := by
  by_cases hx : x = agent_id
  · subst hx
    simp [peersOf, registerAgent, getA_setA_self]
  · simp [peersOf, registerAgent, getA_setA_ne _ _ _ _ (fun h => hx h.symm), hx]

theorem peersOf_deregisterAgent (net : AgentNetwork) (agent_id : String)
    (hreg : getA net.agents agent_id ≠ none)
    (hnd : (net.connections.map Prod.fst).Nodup) (x : String) :
    peersOf (deregisterAgent net agent_id).2 x
      = if x = agent_id then []
        else (peersOf net x).filter (fun p => p ≠ agent_id) := by
  obtain ⟨ag, hag⟩ := Option.ne_none_iff_exists'.mp hreg
  simp only [deregisterAgent, hag]
  by_cases hx : x = agent_id
  · subst hx
    simp [peersOf, getA_mapVal, getA_eraseA_self _ _ hnd]
  · simp only [peersOf, getA_mapVal, getA_eraseA_ne _ _ _ (fun h => hx h.symm),
      if_neg hx]
    cases getA net.connections x <;> simp

theorem peersOf_connectAgents (net : AgentNetwork) (a b : String)
    (ha : ¬getA net.agents a = none) (hb : ¬getA net.agents b = none) (x : String) :
    peersOf (connectAgents net a b).2 x
      = if x = b then
          addPeer (if b = a then addPeer (peersOf net a) b else peersOf net b) a
        else if x = a then addPeer (peersOf net a) b
        else peersOf net x := by
  have hcond : ¬(getA net.agents a = none ∨ getA net.agents b = none) := by tauto
  simp only [connectAgents, if_neg hcond, peersOf]
  by_cases hab : b = a
  · subst hab
    by_cases hx : x = b
    · subst hx
      simp [getA_setA_self, mem_addPeer]
    · simp [getA_setA_ne _ _ _ _ (fun h => hx h.symm), hx]
  · by_cases hxb : x = b
    · subst hxb
      simp [getA_setA_self, getA_setA_ne _ _ _ _ hab,
        getA_setA_ne _ _ _ _ (fun h => hab h.symm), hab]
    · by_cases hxa : x = a
      · subst hxa
        simp [getA_setA_self, getA_setA_ne _ _ _ _ hab,
          getA_setA_ne _ _ _ _ (fun h => hab h.symm), hxb]
      · simp [getA_setA_ne _ _ _ _ (fun h => hxb h.symm),
          getA_setA_ne _ _ _ _ (fun h => hxa h.symm), hxb, hxa]

theorem getA_of_mem_nodup {α : Type} (l : List (String × α)) (p : String × α)
    (hnd : (l.map Prod.fst).Nodup) (hmem : p ∈ l) : getA l p.1 = some p.2 := by
  induction l with
  | nil => cases hmem
  | cons hd t ih =>
    obtain ⟨k0, v0⟩ := hd
    simp only [List.map_cons, List.nodup_cons] at hnd
    rcases List.mem_cons.mp hmem with h | h
    · subst h
      simp [getA]
    · have hne : k0 ≠ p.1 := by
        intro hkp
        exact hnd.1 (hkp ▸ List.mem_map_of_mem Prod.fst h)
      simp only [getA, if_neg hne]
      exact ih hnd.2 h

theorem netInv_init (name : String) : NetInv (initNetwork name) := by
  constructor <;> simp [initNetwork, peersOf, getA]

theorem netInv_register {net : AgentNetwork} (inv : NetInv net)
    (agent_id name host : String) (port : Int) (capabilities : List String)
    (now : Int) (hfresh : getA net.agents agent_id = none) :
    NetInv (registerAgent net agent_id name host port capabilities now) := by
  have hempty : peersOf net agent_id = [] := inv.unreg agent_id hfresh
  constructor
  · intro x y
    rw [peersOf_registerAgent, peersOf_registerAgent]
    by_cases hx : x = agent_id <;> by_cases hy : y = agent_id
    · subst hx; subst hy; simp
    · subst hx
      rw [if_pos rfl, if_neg hy]
      simp only [List.not_mem_nil, false_iff]
      intro hmem
      have := (inv.sym x y).mpr hmem
      rw [hempty] at this
      cases this
    · subst hy
      rw [if_pos rfl, if_neg hx]
      simp only [List.not_mem_nil, iff_false]
      intro hmem
      have := (inv.sym x y).mp hmem
      rw [hempty] at this
      cases this
    · simp only [if_neg hx, if_neg hy]
      exact inv.sym x y
  · intro x hx
    rw [peersOf_registerAgent]
    by_cases hxid : x = agent_id
    · simp [hxid]
    · rw [if_neg hxid]
      apply inv.unreg
      rw [registerAgent] at hx
      simp only at hx
      rwa [getA_setA_ne _ _ _ _ (fun h2 => hxid h2.symm)] at hx
  · exact nodupKeys_setA _ _ _ inv.connKeys
  · exact nodupKeys_setA _ _ _ inv.agentKeys
  · intro k ag hk
    simp only [registerAgent] at hk
    by_cases hkid : k = agent_id
    · subst hkid
      rw [getA_setA_self] at hk
      cases hk
      rfl
    · rw [getA_setA_ne _ _ _ _ (fun h2 => hkid h2.symm)] at hk
      exact inv.keyField k ag hk

theorem netInv_dereg {net : AgentNetwork} (inv : NetInv net) (agent_id : String) :
    NetInv (deregisterAgent net agent_id).2 := by
  cases hag : getA net.agents agent_id with
  | none => simpa [deregisterAgent, hag] using inv
  | some ag =>
    have hreg : getA net.agents agent_id ≠ none := by simp [hag]
    have hchar := peersOf_deregisterAgent net agent_id hreg inv.connKeys
    constructor
    · intro x y
      rw [hchar x, hchar y]
      by_cases hx : x = agent_id <;> by_cases hy : y = agent_id
      · subst hx; subst hy; simp
      · subst hx
        simp [hy]
      · subst hy
        simp [hx]
      · simp only [if_neg hx, if_neg hy, List.mem_filter, decide_eq_true_eq]
        have := inv.sym x y
        tauto
    · intro x hx
      rw [hchar x]
      by_cases hxid : x = agent_id
      · simp [hxid]
      · rw [if_neg hxid]
        simp only [deregisterAgent, hag] at hx
        rw [getA_eraseA_ne _ _ _ (fun h2 => hxid h2.symm)] at hx
        rw [inv.unreg x hx]
        rfl
    · simp only [deregisterAgent, hag]
      rw [show (mapVal (fun peers => peers.filter (fun p => p ≠ agent_id))
          (eraseA net.connections agent_id)).map Prod.fst
        = (eraseA net.connections agent_id).map Prod.fst from keys_mapVal _ _]
      exact nodupKeys_eraseA _ _ inv.connKeys
    · simp only [deregisterAgent, hag]
      exact nodupKeys_eraseA _ _ inv.agentKeys
    · intro k ag2 hk
      simp only [deregisterAgent, hag] at hk
      by_cases hkid : k = agent_id
      · subst hkid
        rw [getA_eraseA_self _ _ inv.agentKeys] at hk
        cases hk
      · rw [getA_eraseA_ne _ _ _ (fun h2 => hkid h2.symm)] at hk
        exact inv.keyField k ag2 hk

theorem mem_peersOf_connectAgents (net : AgentNetwork) (a b : String)
    (ha : ¬getA net.agents a = none) (hb : ¬getA net.agents b = none)
    (x y : String) :
    y ∈ peersOf (connectAgents net a b).2 x ↔
      y ∈ peersOf net x ∨ (x = a ∧ y = b) ∨ (x = b ∧ y = a) := by
  rw [peersOf_connectAgents net a b ha hb x]
  by_cases hxb : x = b
  · subst hxb
    by_cases hba : x = a
    · subst hba
      rw [if_pos rfl, if_pos rfl]
      simp only [mem_addPeer]
      tauto
    · rw [if_pos rfl, if_neg hba]
      simp only [mem_addPeer]
      tauto
  · by_cases hxa : x = a
    · subst hxa
      rw [if_neg hxb, if_pos rfl]
      simp only [mem_addPeer]
      tauto
    · rw [if_neg hxb, if_neg hxa]
      tauto

theorem netInv_connect {net : AgentNetwork} (inv : NetInv net) (a b : String) :
    NetInv (connectAgents net a b).2 := by
  by_cases hcond : getA net.agents a = none ∨ getA net.agents b = none
  · simpa [connectAgents, hcond] using inv
  · have ha : ¬getA net.agents a = none := fun h2 => hcond (Or.inl h2)
    have hb : ¬getA net.agents b = none := fun h2 => hcond (Or.inr h2)
    have hagents : (connectAgents net a b).2.agents = net.agents := by
      simp [connectAgents, hcond]
    constructor
    · intro x y
      rw [mem_peersOf_connectAgents net a b ha hb x y,
        mem_peersOf_connectAgents net a b ha hb y x]
      have := inv.sym x y
      tauto
    · intro x hx
      rw [hagents] at hx
      have hxa : x ≠ a := fun h2 => ha (h2 ▸ hx)
      have hxb : x ≠ b := fun h2 => hb (h2 ▸ hx)
      rw [peersOf_connectAgents net a b ha hb x, if_neg hxb, if_neg hxa]
      exact inv.unreg x hx
    · simp only [connectAgents, if_neg hcond]
      exact nodupKeys_setA _ _ _ (nodupKeys_setA _ _ _
        (nodupKeys_setA _ _ _ (nodupKeys_setA _ _ _ inv.connKeys)))
    · rw [hagents]; exact inv.agentKeys
    · rw [hagents]; exact inv.keyField

theorem netInv_heartbeat {net : AgentNetwork} (inv : NetInv net)
    (agent_id : String) (now : Int) : NetInv (heartbeat net agent_id now).2 := by
  cases hag : getA net.agents agent_id with
  | none => simpa [heartbeat, hag] using inv
  | some ag =>
    have hconn : (heartbeat net agent_id now).2.connections = net.connections := by
      simp [heartbeat, hag]
    constructor
    · intro x y
      simp only [peersOf, hconn]
      exact inv.sym x y
    · intro x hx
      simp only [peersOf, hconn]
      simp only [heartbeat, hag] at hx
      by_cases hxid : x = agent_id
      · subst hxid
        rw [getA_setA_self] at hx
        cases hx
      · rw [getA_setA_ne _ _ _ _ (fun h2 => hxid h2.symm)] at hx
        exact inv.unreg x hx
    · rw [hconn]; exact inv.connKeys
    · simp only [heartbeat, hag]
      exact nodupKeys_setA _ _ _ inv.agentKeys
    · intro k ag2 hk
      simp only [heartbeat, hag] at hk
      by_cases hkid : k = agent_id
      · subst hkid
        rw [getA_setA_self] at hk
        cases hk
        exact inv.keyField _ ag hag
      · rw [getA_setA_ne _ _ _ _ (fun h2 => hkid h2.symm)] at hk
        exact inv.keyField k ag2 hk

theorem netInv_topo {net : AgentNetwork} (inv : NetInv net) (now : Int) :
    NetInv (getTopology net now).2 := by
  have hconn : (getTopology net now).2.connections = net.connections := rfl
  constructor
  · intro x y
    simp only [peersOf, hconn]
    exact inv.sym x y
  · intro x hx
    simp only [peersOf, hconn]
    simp only [getTopology, getA_mapVal, Option.map_eq_none'] at hx
    exact inv.unreg x hx
  · rw [hconn]; exact inv.connKeys
  · simp only [getTopology]
    rw [keys_mapVal]
    exact inv.agentKeys
  · intro k ag2 hk
    simp only [getTopology, getA_mapVal] at hk
    cases hag : getA net.agents k with
    | none => rw [hag] at hk; cases hk
    | some ag =>
      rw [hag] at hk
      simp only [Option.map_some'] at hk
      have hfield := inv.keyField k ag hag
      split at hk <;> cases hk <;> simpa using hfield

theorem netInv_of_reachable {net : AgentNetwork} (h : NetReachable net) :
    NetInv net := by
  induction h with
  | init name => exact netInv_init name
  | reg h agent_id name host port capabilities now hfresh ih =>
    exact netInv_register ih agent_id name host port capabilities now hfresh
  | dereg h agent_id ih => exact netInv_dereg ih agent_id
  | conn h a b ih => exact netInv_connect ih a b
  | hb h agent_id now ih => exact netInv_heartbeat ih agent_id now
  | topo h now ih => exact netInv_topo ih now

/-- C5: in every reachable network state the peer relation is symmetric;
`connect_agents` returning true makes each agent a peer of the other, and it
returns false when either id is unknown. -/
theorem peer_connections_symmetric (net : AgentNetwork) (h : NetReachable net) :
    (∀ a b, b ∈ peersOf net a ↔ a ∈ peersOf net b) ∧
    (∀ a b, (connectAgents net a b).1 = true →
      b ∈ peersOf (connectAgents net a b).2 a ∧
      a ∈ peersOf (connectAgents net a b).2 b) ∧
    (∀ a b, getA net.agents a = none ∨ getA net.agents b = none →
      (connectAgents net a b).1 = false) := by
  have inv := netInv_of_reachable h
  refine ⟨inv.sym, ?_, ?_⟩
  · intro a b htrue
    by_cases hcond : getA net.agents a = none ∨ getA net.agents b = none
    · rw [connectAgents, if_pos hcond] at htrue
      cases htrue
    · have ha : ¬getA net.agents a = none := fun h2 => hcond (Or.inl h2)
      have hb : ¬getA net.agents b = none := fun h2 => hcond (Or.inr h2)
      constructor
      · rw [mem_peersOf_connectAgents net a b ha hb a b]
        tauto
      · rw [mem_peersOf_connectAgents net a b ha hb b a]
        tauto
  · intro a b hcond
    rw [connectAgents, if_pos hcond]

/-- A concrete reachable network: two registrations and one connection. -/
def exampleNet : AgentNetwork :=
  (connectAgents
    (registerAgent
      (registerAgent (initNetwork "net") "A" "alpha" "hostA" 1 [] 0)
      "B" "beta" "hostB" 2 [] 0)
    "A" "B").2

theorem exampleNet_reachable : NetReachable exampleNet :=
  NetReachable.conn
    (NetReachable.reg
      (NetReachable.reg (NetReachable.init "net") "A" "alpha" "hostA" 1 [] 0 rfl)
      "B" "beta" "hostB" 2 [] 0 (by decide))
    "A" "B"

/-- Witness for `peer_connections_symmetric` on `exampleNet`. -/
theorem peer_connections_symmetric_witness :
    ("B" ∈ peersOf exampleNet "A" ↔ "A" ∈ peersOf exampleNet "B") ∧
    (connectAgents exampleNet "A" "C").1 = false := by
  have h := peer_connections_symmetric exampleNet exampleNet_reachable
  exact ⟨h.1 "A" "B", h.2.2 "A" "C" (Or.inr (by decide))⟩

/-- C6: `get_topology` demotes every active agent whose last heartbeat is more
than `heartbeat_timeout` seconds old and drops it from the returned active
list; it never re-activates a failed agent (their records pass through
unchanged); only `heartbeat` re-activates, and `heartbeat` on an unknown id
returns false without touching the state. -/
theorem topology_demotes_stale_agents (net : AgentNetwork) (h : NetReachable net)
    (now now2 : Int) :
    (∀ id ag, getA net.agents id = some ag → ag.status = "active" →
      now - ag.last_heartbeat > net.heartbeat_timeout →
      getA (getTopology net now).2.agents id = some { ag with status := "failed" } ∧
      id ∉ (getTopology net now).1.active_agents) ∧
    (∀ id ag, getA net.agents id = some ag → ag.status = "failed" →
      getA (getTopology net now).2.agents id = some ag) ∧
    (∀ id ag, getA net.agents id = some ag →
      (heartbeat net id now2).1 = true ∧
      getA (heartbeat net id now2).2.agents id
        = some { ag with last_heartbeat := now2, status := "active" }) ∧
    (∀ id, getA net.agents id = none → heartbeat net id now2 = (false, net)) := by
  have inv := netInv_of_reachable h
  have invT := netInv_topo inv now
  refine ⟨?_, ?_, ?_, ?_⟩
  · intro id ag hag hactive hstale
    have hunhealthy : heartbeatHealthy net ag now = false := by
      simp only [heartbeatHealthy, decide_eq_false_iff_not, not_lt]
      omega
    have hagents2 : (getTopology net now).2.agents
        = mapVal (fun ag =>
            if heartbeatHealthy net ag now = false ∧ ag.status = "active"
            then { ag with status := "failed" } else ag) net.agents := rfl
    have hdem : getA (getTopology net now).2.agents id
        = some { ag with status := "failed" } := by
      rw [hagents2, getA_mapVal, hag]
      simp [hunhealthy, hactive]
    refine ⟨hdem, ?_⟩
    intro hmem
    have : (getTopology net now).1.active_agents
        = (getTopology net now).2.agents.filterMap
            (fun p => if p.2.status = "active" then some p.2.agent_id else none) := rfl
    rw [this] at hmem
    obtain ⟨p, hp, hps⟩ := List.mem_filterMap.mp hmem
    have hpact : p.2.status = "active" ∧ p.2.agent_id = id := by
      by_cases hs : p.2.status = "active"
      · rw [if_pos hs] at hps
        exact ⟨hs, Option.some.inj hps⟩
      · rw [if_neg hs] at hps
        cases hps
    have hkey : p.2.agent_id = p.1 := invT.keyField p.1 p.2
      (getA_of_mem_nodup _ p invT.agentKeys hp)
    have hp1 : p.1 = id := by rw [← hkey, hpact.2]
    have hgp : getA (getTopology net now).2.agents id = some p.2 := by
      rw [← hp1]
      exact getA_of_mem_nodup _ p invT.agentKeys hp
    rw [hdem] at hgp
    have h2 : p.2.status = "failed" := by
      rw [(Option.some.inj hgp).symm]
    rw [hpact.1] at h2
    exact absurd h2 (by decide)
  · intro id ag hag hfailed
    have hagents2 : (getTopology net now).2.agents
        = mapVal (fun ag =>
            if heartbeatHealthy net ag now = false ∧ ag.status = "active"
            then { ag with status := "failed" } else ag) net.agents := rfl
    rw [hagents2, getA_mapVal, hag]
    have hno : ¬(heartbeatHealthy net ag now = false ∧ ag.status = "active") := by
      rintro ⟨-, hact⟩
      rw [hfailed] at hact
      exact absurd hact (by decide)
    simp [hno]
  · intro id ag hag
    refine ⟨by simp [heartbeat, hag], ?_⟩
    simp [heartbeat, hag, getA_setA_self]
  · intro id hid
    simp [heartbeat, hid]

/-- A reachable network with one agent registered at time 0. -/
def exampleNetC6 : AgentNetwork :=
  registerAgent (initNetwork "n") "A" "alpha" "hostA" 1 [] 0

theorem exampleNetC6_reachable : NetReachable exampleNetC6 :=
  NetReachable.reg (NetReachable.init "n") "A" "alpha" "hostA" 1 [] 0 rfl

/-- Witness for `topology_demotes_stale_agents`: the agent registered at time 0
is demoted and excluded by a topology query at time 40 (> default timeout 30),
and a heartbeat for an unknown id returns false. -/
theorem topology_demotes_stale_agents_witness :
    (getA (getTopology exampleNetC6 40).2.agents "A"
        = some { agent_id := "A", name := "alpha", host := "hostA", port := 1,
                 capabilities := [], status := "failed", registered_at := 0,
                 last_heartbeat := 0 } ∧
      "A" ∉ (getTopology exampleNetC6 40).1.active_agents) ∧
    heartbeat exampleNetC6 "X" 40 = (false, exampleNetC6) := by
  have h := topology_demotes_stale_agents exampleNetC6 exampleNetC6_reachable 40 40
  refine ⟨?_, h.2.2.2 "X" (by decide)⟩
  exact h.1 "A" _ rfl rfl (by decide)

/-! ## Load balancer (`src/mind/distributed/load_balancer.py`)

Claims C7, C8 and C9.  Python floats (durations and scores) are embedded as
rationals: every arithmetic step the claims touch (counter ratios,
`1 - active/10`, comparisons with 0) is exact at the inputs involved.
`random.choice` is embedded by passing the chosen index in as `pick`; the
claims hold for every choice. -/

/-- `LoadBalancingStrategy` enum. -/
inductive LoadBalancingStrategy where
  | round_robin
  | random
  | least_loaded
  | weighted
  | performance_based
  deriving DecidableEq

/-- A candidate agent dict `{"agent_id": ..., "name": ...}`; `name` is read
with `.get`, so it may be absent. -/
structure Candidate where
  agent_id : String
  name : Option String := none
  deriving DecidableEq

/-- `TaskAssignment` dataclass (the fields the claims touch). -/
structure TaskAssignment where
  task_id : String
  agent_id : String
  strategy : LoadBalancingStrategy
  assignment_time : Int
  actual_completion : Option Int := none
  execution_time : Rat := 0
  success : Bool := true
  error : Option String := none
  deriving DecidableEq

/-- `AgentLoad` dataclass. -/
structure AgentLoad where
  agent_id : String
  name : String
  active_tasks : Nat := 0
  completed_tasks : Nat := 0
  failed_tasks : Nat := 0
  total_execution_time : Rat := 0
  average_execution_time : Rat := 0
  performance_score : Rat := 1
  deriving DecidableEq

/-- `LoadBalancer` object state. -/
structure LoadBalancer where
  assignments : List (String × TaskAssignment) := []
  agent_loads : List (String × AgentLoad) := []
  round_robin_index : Nat := 0
  deriving DecidableEq

/-- Fresh `LoadBalancer` (no persisted assignments). -/
def initLoadBalancer : LoadBalancer := {}

/-- The load record consulted for an agent, defaulting exactly as
`self.agent_loads.get(agent_id, AgentLoad(agent_id=agent_id, name=""))`. -/
def loadFor (lb : LoadBalancer) (agent_id : String) : AgentLoad :=
  (getA lb.agent_loads agent_id).getD { agent_id := agent_id, name := "" }

/-- `LoadBalancer._assign_round_robin`. -/
def assignRoundRobin (lb : LoadBalancer) (agents : List Candidate) :
    Option Candidate × LoadBalancer :=
  match agents with
  | [] => (none, lb)
  | a0 :: _ =>
    (some (agents.getD (lb.round_robin_index % agents.length) a0),
     { lb with round_robin_index := lb.round_robin_index + 1 })

/-- The scan inside `LoadBalancer._assign_least_loaded`: `min_load` starts at
`float("inf")` (`none` here) and is improved strictly. -/
def leastLoadedLoop (lb : LoadBalancer) :
    List Candidate → Option Nat → Option Candidate → Option Candidate
  | [], _, selected => selected
  | a :: rest, min_load, selected =>
    let current := (loadFor lb a.agent_id).active_tasks
    match min_load with
    | none => leastLoadedLoop lb rest (some current) (some a)
    | some m =>
      if current < m then leastLoadedLoop lb rest (some current) (some a)
      else leastLoadedLoop lb rest (some m) selected

/-- `LoadBalancer._assign_least_loaded`. -/
def assignLeastLoaded (lb : LoadBalancer) (agents : List Candidate) :
    Option Candidate :=
  match agents with
  | [] => none
  | _ :: _ => leastLoadedLoop lb agents none none

/-- `performance_score * (1.0 - active_tasks / 10.0)` for one agent. -/
def perfScore (lb : LoadBalancer) (agent_id : String) : Rat :=
  let load := loadFor lb agent_id
  load.performance_score * (1 - (load.active_tasks : Rat) / 10)

/-- The scan inside `LoadBalancer._assign_performance_based`: `best_score`
starts at `0.0` and is improved strictly, so it can end with no selection. -/
def perfLoop (lb : LoadBalancer) :
    List Candidate → Rat → Option Candidate → Option Candidate
  | [], _, best => best
  | a :: rest, best_score, best =>
    let score := perfScore lb a.agent_id
    if score > best_score then perfLoop lb rest score (some a)
    else perfLoop lb rest best_score best

/-- `LoadBalancer._assign_performance_based`. -/
def assignPerformanceBased (lb : LoadBalancer) (agents : List Candidate) :
    Option Candidate :=
  match agents with
  | [] => none
  | _ :: _ => perfLoop lb agents 0 none

/-- `[agent] * int(weight * 10)` for every candidate, concatenated.  `int`
truncates toward zero; for building a list this coincides with
`toNat ∘ floor`, since both yield an empty block for negative weights. -/
def weightedPool (agents : List Candidate) (weights : List (String × Rat)) :
    List Candidate :=
  agents.flatMap (fun a =>
    List.replicate (((getA weights a.agent_id).getD 1 * 10).floor).toNat a)

/-- `LoadBalancer._assign_weighted`; `pick` is the random choice. -/
def assignWeighted (agents : List Candidate) (weights : List (String × Rat))
    (pick : Nat) : Option Candidate :=
  match agents with
  | [] => none
  | a0 :: _ =>
    let pool := weightedPool agents weights
    if pool.isEmpty then some a0
    else some (pool.getD (pick % pool.length) a0)

/-- The `selected_agent` computation of `LoadBalancer.assign_task`: which
agent the strategy picks, together with the state (only the round-robin
pointer ever moves here). -/
def selectAgent (lb : LoadBalancer) (agents : List Candidate)
    (strategy : LoadBalancingStrategy) (weights : List (String × Rat))
    (pick : Nat) : Option Candidate × LoadBalancer :=
  match strategy with
  | .round_robin => assignRoundRobin lb agents
  | .random =>
    (match agents with
     | [] => none
     | a0 :: _ => some (agents.getD (pick % agents.length) a0), lb)
  | .least_loaded => (assignLeastLoaded lb agents, lb)
  | .weighted => (assignWeighted agents weights pick, lb)
  | .performance_based => (assignPerformanceBased lb agents, lb)

/-- `LoadBalancer.assign_task`; `pick` feeds the strategies that call
`random.choice`, `now` is the clock reading. -/
def assignTask (lb : LoadBalancer) (task_id : String) (agents : List Candidate)
    (strategy : LoadBalancingStrategy) (weights : List (String × Rat))
    (pick : Nat) (now : Int) : Option Candidate × LoadBalancer :=
  if agents.isEmpty then (none, lb)
  else
    let sel := selectAgent lb agents strategy weights pick
    match sel.1 with
    | none => (none, sel.2)
    | some agent =>
      let assignment : TaskAssignment :=
        { task_id := task_id, agent_id := agent.agent_id, strategy := strategy,
          assignment_time := now }
      let load0 := (getA sel.2.agent_loads agent.agent_id).getD
        { agent_id := agent.agent_id, name := agent.name.getD agent.agent_id }
      (some agent,
       { sel.2 with
          assignments := setA sel.2.assignments task_id assignment,
          agent_loads := setA sel.2.agent_loads agent.agent_id
            { load0 with active_tasks := load0.active_tasks + 1 } })

/-- `LoadBalancer.complete_task`. -/
def completeTask (lb : LoadBalancer) (task_id : String) (execution_time : Rat)
    (success : Bool) (error : Option String) (now : Int) : Bool × LoadBalancer :=
  match getA lb.assignments task_id with
  | none => (false, lb)
  | some assignment =>
    let assignment :=
      { assignment with
          actual_completion := some now,
          execution_time := execution_time,
          success := success,
          error := error }
    let lb1 := { lb with assignments := setA lb.assignments task_id assignment }
    match getA lb1.agent_loads assignment.agent_id with
    | none => (true, lb1)
    | some load =>
      -- `max(0, active_tasks - 1)` is truncated subtraction on Nat
      let load := { load with active_tasks := load.active_tasks - 1 }
      let load :=
        if success then { load with completed_tasks := load.completed_tasks + 1 }
        else { load with failed_tasks := load.failed_tasks + 1 }
      let load :=
        { load with total_execution_time := load.total_execution_time + execution_time }
      let load :=
        if load.completed_tasks + load.failed_tasks > 0 then
          { load with average_execution_time := load.total_execution_time /
              ((load.completed_tasks : Rat) + (load.failed_tasks : Rat)) }
        else load
      let load :=
        if load.completed_tasks + load.failed_tasks > 0 then
          { load with performance_score := (load.completed_tasks : Rat) /
              ((load.completed_tasks : Rat) + (load.failed_tasks : Rat)) }
        else load
      (true, { lb1 with agent_loads := setA lb1.agent_loads assignment.agent_id load })

theorem getD_mod_mem {α : Type} (l : List α) (a0 : α) (i : Nat) (hne : l ≠ []) :
    l.getD (i % l.length) a0 ∈ l := by
  have hlt : i % l.length < l.length :=
    Nat.mod_lt _ (List.length_pos.mpr hne)
  rw [List.getD_eq_getElem l a0 hlt]
  exact List.getElem_mem hlt

theorem leastLoadedLoop_some (lb : LoadBalancer) (xs : List Candidate) :
    ∀ (m : Nat) (s : Candidate), ∃ a,
      leastLoadedLoop lb xs (some m) (some s) = some a ∧ (a = s ∨ a ∈ xs) := by
  induction xs with
  | nil => intro m s; exact ⟨s, rfl, Or.inl rfl⟩
  | cons x rest ih =>
    intro m s
    simp only [leastLoadedLoop]
    split
    · obtain ⟨a, ha, hmem⟩ := ih ((loadFor lb x.agent_id).active_tasks) x
      refine ⟨a, ha, ?_⟩
      rcases hmem with rfl | h
      · exact Or.inr (List.mem_cons_self _ _)
      · exact Or.inr (List.mem_cons_of_mem _ h)
    · obtain ⟨a, ha, hmem⟩ := ih m s
      refine ⟨a, ha, ?_⟩
      rcases hmem with rfl | h
      · exact Or.inl rfl
      · exact Or.inr (List.mem_cons_of_mem _ h)

theorem assignLeastLoaded_some (lb : LoadBalancer) (agents : List Candidate)
    (hne : agents ≠ []) :
    ∃ a, assignLeastLoaded lb agents = some a ∧ a ∈ agents := by
  cases agents with
  | nil => exact absurd rfl hne
  | cons a0 rest =>
    simp only [assignLeastLoaded, leastLoadedLoop]
    obtain ⟨a, ha, hmem⟩ :=
      leastLoadedLoop_some lb rest ((loadFor lb a0.agent_id).active_tasks) a0
    refine ⟨a, ha, ?_⟩
    rcases hmem with rfl | h
    · exact List.mem_cons_self _ _
    · exact List.mem_cons_of_mem _ h

theorem perfLoop_mem (lb : LoadBalancer) (xs : List Candidate) :
    ∀ (bs : Rat) (b : Option Candidate) (a : Candidate),
      perfLoop lb xs bs b = some a → b = some a ∨ a ∈ xs := by
  induction xs with
  | nil => intro bs b a h; exact Or.inl h
  | cons x rest ih =>
    intro bs b a h
    simp only [perfLoop] at h
    split at h
    · rcases ih _ _ _ h with h2 | h2
      · cases h2; exact Or.inr (List.mem_cons_self _ _)
      · exact Or.inr (List.mem_cons_of_mem _ h2)
    · rcases ih _ _ _ h with h2 | h2
      · exact Or.inl h2
      · exact Or.inr (List.mem_cons_of_mem _ h2)

theorem mem_weightedPool (agents : List Candidate) (weights : List (String × Rat))
    (x : Candidate) (h : x ∈ weightedPool agents weights) : x ∈ agents := by
  simp only [weightedPool, List.mem_flatMap] at h
  obtain ⟨a, ha, hx⟩ := h
  rw [List.eq_of_mem_replicate hx]
  exact ha

theorem assignWeighted_some (agents : List Candidate)
    (weights : List (String × Rat)) (pick : Nat) (hne : agents ≠ []) :
    ∃ a, assignWeighted agents weights pick = some a ∧ a ∈ agents := by
  cases agents with
  | nil => exact absurd rfl hne
  | cons a0 rest =>
    simp only [assignWeighted]
    split
    · exact ⟨a0, rfl, List.mem_cons_self _ _⟩
    · rename_i hpool
      refine ⟨_, rfl, ?_⟩
      have hne2 : weightedPool (a0 :: rest) weights ≠ [] := by
        intro h2
        rw [h2] at hpool
        exact hpool rfl
      exact mem_weightedPool _ _ _ (getD_mod_mem _ _ _ hne2)

theorem selectAgent_mem (lb : LoadBalancer) (agents : List Candidate)
    (strategy : LoadBalancingStrategy) (weights : List (String × Rat))
    (pick : Nat) (a : Candidate)
    (h : (selectAgent lb agents strategy weights pick).1 = some a) : a ∈ agents := by
  cases strategy with
  | round_robin =>
    cases agents with
    | nil => cases h
    | cons a0 rest =>
      simp only [selectAgent, assignRoundRobin] at h
      cases h
      exact getD_mod_mem _ _ _ (by simp)
  | random =>
    cases agents with
    | nil => cases h
    | cons a0 rest =>
      simp only [selectAgent] at h
      cases h
      exact getD_mod_mem _ _ _ (by simp)
  | least_loaded =>
    cases agents with
    | nil => cases h
    | cons a0 rest =>
      simp only [selectAgent] at h
      obtain ⟨b, hb, hmem⟩ := assignLeastLoaded_some lb (a0 :: rest) (by simp)
      rw [hb] at h
      cases h
      exact hmem
  | weighted =>
    cases agents with
    | nil => cases h
    | cons a0 rest =>
      simp only [selectAgent] at h
      obtain ⟨b, hb, hmem⟩ := assignWeighted_some (a0 :: rest) weights pick (by simp)
      rw [hb] at h
      cases h
      exact hmem
  | performance_based =>
    cases agents with
    | nil => cases h
    | cons a0 rest =>
      simp only [selectAgent, assignPerformanceBased] at h
      rcases perfLoop_mem lb (a0 :: rest) 0 none a h with h2 | h2
      · cases h2
      · exact h2

theorem selectAgent_some (lb : LoadBalancer) (agents : List Candidate)
    (strategy : LoadBalancingStrategy) (weights : List (String × Rat))
    (pick : Nat) (hne : agents ≠ [])
    (hs : strategy ≠ LoadBalancingStrategy.performance_based) :
    ∃ a, (selectAgent lb agents strategy weights pick).1 = some a := by
  cases agents with
  | nil => exact absurd rfl hne
  | cons a0 rest =>
    cases strategy with
    | round_robin => exact ⟨_, rfl⟩
    | random => exact ⟨_, rfl⟩
    | least_loaded =>
      obtain ⟨a, ha, -⟩ := assignLeastLoaded_some lb (a0 :: rest) (by simp)
      exact ⟨a, ha⟩
    | weighted =>
      obtain ⟨a, ha, -⟩ := assignWeighted_some (a0 :: rest) weights pick (by simp)
      exact ⟨a, ha⟩
    | performance_based => exact absurd rfl hs

/-- C7 (amended): `assign_task` returns none on an empty candidate list; on a
non-empty list every strategy except `performance_based` returns a candidate;
whenever a candidate is returned it is one of the supplied candidates and a
`TaskAssignment` for it is recorded under the task id.  (`performance_based`
can return none on a non-empty list — see the counterexample.) -/
theorem assign_task_candidates (lb : LoadBalancer) (task_id : String)
    (agents : List Candidate) (strategy : LoadBalancingStrategy)
    (weights : List (String × Rat)) (pick : Nat) (now : Int) :
    (agents = [] → assignTask lb task_id agents strategy weights pick now = (none, lb)) ∧
    (agents ≠ [] → strategy ≠ LoadBalancingStrategy.performance_based →
      ∃ a, (assignTask lb task_id agents strategy weights pick now).1 = some a) ∧
    (∀ a, (assignTask lb task_id agents strategy weights pick now).1 = some a →
      a ∈ agents ∧
      getA (assignTask lb task_id agents strategy weights pick now).2.assignments
          task_id
        = some { task_id := task_id, agent_id := a.agent_id, strategy := strategy,
                 assignment_time := now }) := by
  refine ⟨?_, ?_, ?_⟩
  · rintro rfl
    rfl
  · intro hne hs
    obtain ⟨a, ha⟩ := selectAgent_some lb agents strategy weights pick hne hs
    have hempty : agents.isEmpty = false := by
      cases agents
      · exact absurd rfl hne
      · rfl
    simp only [assignTask, hempty, Bool.false_eq_true, if_false, ha]
    exact ⟨a, rfl⟩
  · intro a ha
    by_cases hempty : agents.isEmpty
    · rw [assignTask, if_pos hempty] at ha
      cases ha
    · simp only [assignTask, hempty, Bool.false_eq_true, if_false] at ha ⊢
      split at ha
      · cases ha
      · rename_i agent heq
        have hba : some agent = some a := ha
        obtain rfl := Option.some.inj hba
        refine ⟨selectAgent_mem lb agents strategy weights pick agent heq, ?_⟩
        simp only [heq]
        exact getA_setA_self _ _ _

/-- Witness for `assign_task_candidates`: empty list gives none; a two-element
list under `least_loaded` yields a candidate. -/
theorem assign_task_candidates_witness :
    (assignTask initLoadBalancer "t" [] LoadBalancingStrategy.least_loaded [] 0 0
      = (none, initLoadBalancer)) ∧
    (∃ a, (assignTask initLoadBalancer "t"
        [{ agent_id := "a1" }, { agent_id := "a2" }]
        LoadBalancingStrategy.least_loaded [] 0 0).1 = some a) := by
  constructor
  · exact (assign_task_candidates initLoadBalancer "t" []
      LoadBalancingStrategy.least_loaded [] 0 0).1 rfl
  · exact (assign_task_candidates initLoadBalancer "t"
      [{ agent_id := "a1" }, { agent_id := "a2" }]
      LoadBalancingStrategy.least_loaded [] 0 0).2.1 (by simp) (by simp)

/-- The state after assigning task "t1" to the sole candidate "a1" and
completing it as failed: "a1" ends with performance score 0. -/
def lbOneFailure : LoadBalancer :=
  (completeTask
    (assignTask initLoadBalancer "t1" [{ agent_id := "a1" }]
      LoadBalancingStrategy.least_loaded [] 0 0).2
    "t1" 1 false none 0).2

/-- Counterexample to C7 as stated: after one failed task the sole candidate's
performance score is 0, and `performance_based` (whose best-score threshold
starts at 0 and must be beaten strictly) returns none on the non-empty list. -/
theorem assign_task_nonempty_returns_none :
    (([{ agent_id := "a1" }] : List Candidate) ≠ []) ∧
    (assignTask lbOneFailure "t2" [{ agent_id := "a1" }]
        LoadBalancingStrategy.performance_based [] 0 0).1 = none := by
  refine ⟨by simp, ?_⟩
  have hperf : (loadFor lbOneFailure "a1").performance_score = 0 := by
    simp [lbOneFailure, assignTask, selectAgent, assignLeastLoaded, leastLoadedLoop,
      initLoadBalancer, completeTask, loadFor, getA, setA]
  simp [assignTask, selectAgent, assignPerformanceBased, perfLoop, perfScore, hperf]

/-- C8 (amended): `complete_task` returns false and changes nothing for a
task id that was never assigned; for an assigned task id, each call — the code
has no exactly-once guard, so repeated calls re-apply the updates — returns
true, records completion time, duration and success on the assignment,
decrements the agent's active count (floored at 0), increments its completed
or failed counter, and sets performanceScore = completed/(completed+failed). -/
theorem complete_task_updates (lb : LoadBalancer) (task_id : String)
    (execution_time : Rat) (success : Bool) (error : Option String) (now : Int) :
    (getA lb.assignments task_id = none →
      completeTask lb task_id execution_time success error now = (false, lb)) ∧
    (∀ asg load, getA lb.assignments task_id = some asg →
      getA lb.agent_loads asg.agent_id = some load →
      (completeTask lb task_id execution_time success error now).1 = true ∧
      getA (completeTask lb task_id execution_time success error now).2.assignments
          task_id
        = some { asg with
                   actual_completion := some now,
                   execution_time := execution_time, success := success,
                   error := error } ∧
      ∃ load2,
        getA (completeTask lb task_id execution_time success error now).2.agent_loads
            asg.agent_id = some load2 ∧
        load2.active_tasks = load.active_tasks - 1 ∧
        load2.completed_tasks = load.completed_tasks + (if success then 1 else 0) ∧
        load2.failed_tasks = load.failed_tasks + (if success then 0 else 1) ∧
        load2.performance_score = (load2.completed_tasks : Rat) /
          ((load2.completed_tasks : Rat) + (load2.failed_tasks : Rat))) := by
  constructor
  · intro h
    simp [completeTask, h]
  · intro asg load hasg hload
    cases success with
    | true =>
      have hpos : load.completed_tasks + 1 + load.failed_tasks > 0 := by omega
      simp only [completeTask, hasg, hload]
      refine ⟨trivial, by simp [getA_setA_self], ⟨_, getA_setA_self _ _ _, ?_, ?_, ?_, ?_⟩⟩
      all_goals simp [hpos]
    | false =>
      have hpos : load.completed_tasks + (load.failed_tasks + 1) > 0 := by omega
      simp only [completeTask, hasg, hload]
      refine ⟨trivial, by simp [getA_setA_self], ⟨_, getA_setA_self _ _ _, ?_, ?_, ?_, ?_⟩⟩
      all_goals simp [hpos]

/-- The state after assigning task "t1" to "a1". -/
def lbAssigned : LoadBalancer :=
  (assignTask initLoadBalancer "t1" [{ agent_id := "a1" }]
    LoadBalancingStrategy.least_loaded [] 0 0).2

/-- The state after completing "t1" once (successfully). -/
def lbDone : LoadBalancer :=
  (completeTask lbAssigned "t1" 1 true none 0).2

/-- Witness for `complete_task_updates`: completing an unknown id is a false
no-op; completing the assigned "t1" returns true. -/
theorem complete_task_updates_witness :
    completeTask initLoadBalancer "missing" 1 true none 0
      = (false, initLoadBalancer) ∧
    (completeTask lbAssigned "t1" 1 true none 0).1 = true := by
  have h := complete_task_updates initLoadBalancer "missing" 1 true none 0
  have h2 := complete_task_updates lbAssigned "t1" 1 true none 0
  exact ⟨h.1 rfl, (h2.2 _ _ rfl rfl).1⟩

/-- Counterexample to C8 as stated: "t1" is assigned once, yet a second
`complete_task` call for it also returns true and counts a second completion
(the agent's completed counter reaches 2), so completion is not exactly-once. -/
theorem complete_task_twice_counted :
    (completeTask lbAssigned "t1" 1 true none 0).1 = true ∧
    (completeTask lbDone "t1" 1 true none 0).1 = true ∧
    (loadFor (completeTask lbDone "t1" 1 true none 0).2 "a1").completed_tasks = 2 :=
  ⟨rfl, rfl, rfl⟩

/-- A run of consecutive `assign_task` calls with the round-robin strategy
over one fixed candidate list, with no completions in between; collects the
selected agents in call order. -/
def assignSeq (lb : LoadBalancer) (agents : List Candidate) (now : Int) :
    List String → List (Option Candidate) × LoadBalancer
  | [] => ([], lb)
  | tid :: rest =>
    let step := assignTask lb tid agents LoadBalancingStrategy.round_robin [] 0 now
    let tail := assignSeq step.2 agents now rest
    (step.1 :: tail.1, tail.2)

theorem assignTask_round_robin_step (lb : LoadBalancer) (tid : String)
    (a0 : Candidate) (rest : List Candidate) (now : Int) :
    (assignTask lb tid (a0 :: rest) LoadBalancingStrategy.round_robin [] 0 now).1
      = some ((a0 :: rest).getD
          (lb.round_robin_index % (a0 :: rest).length) a0) ∧
    (assignTask lb tid (a0 :: rest)
        LoadBalancingStrategy.round_robin [] 0 now).2.round_robin_index
      = lb.round_robin_index + 1 :=
  ⟨rfl, rfl⟩

theorem assignSeq_selections (a0 : Candidate) (rest : List Candidate) (now : Int) :
    ∀ (tids : List String) (lb : LoadBalancer),
      (assignSeq lb (a0 :: rest) now tids).1
        = (List.range tids.length).map
            (fun k => some ((a0 :: rest).getD
                ((lb.round_robin_index + k) % (a0 :: rest).length) a0)) := by
  intro tids
  induction tids with
  | nil => intro lb; rfl
  | cons tid tl ih =>
    intro lb
    have hsel := (assignTask_round_robin_step lb tid a0 rest now).1
    have hrri := (assignTask_round_robin_step lb tid a0 rest now).2
    simp only [assignSeq]
    rw [hsel,
      ih (assignTask lb tid (a0 :: rest) LoadBalancingStrategy.round_robin [] 0 now).2,
      hrri]
    simp only [List.length_cons]
    rw [List.range_succ_eq_map, List.map_cons, List.map_map]
    congr 1
    apply List.map_congr_left
    intro k _
    simp only [Function.comp_apply]
    have harg : lb.round_robin_index + 1 + k
        = lb.round_robin_index + Nat.succ k := by omega
    rw [harg]

theorem rrWindow_eq_rotate (a0 : Candidate) (rest : List Candidate) (i : Nat) :
    (List.range (a0 :: rest).length).map
        (fun k => (a0 :: rest).getD ((i + k) % (a0 :: rest).length) a0)
      = (a0 :: rest).rotate (i % (a0 :: rest).length) := by
  apply List.ext_getElem
  · simp
  · intro n h1 h2
    simp only [List.getElem_map, List.getElem_range]
    rw [List.getElem_rotate]
    have hlt : (i + n) % (a0 :: rest).length < (a0 :: rest).length :=
      Nat.mod_lt _ (by simp)
    rw [List.getD_eq_getElem _ _ hlt]
    congr 1
    rw [Nat.add_mod i n, Nat.add_mod n (i % (a0 :: rest).length), Nat.mod_mod,
      Nat.add_comm (i % (a0 :: rest).length) (n % (a0 :: rest).length)]

theorem count_rrWindow (a0 : Candidate) (rest : List Candidate) (i : Nat)
    (c : Candidate) (hnd : (a0 :: rest).Nodup) (hc : c ∈ a0 :: rest) :
    ((List.range (a0 :: rest).length).map
        (fun k => (a0 :: rest).getD ((i + k) % (a0 :: rest).length) a0)).count c
      = 1 := by
  rw [rrWindow_eq_rotate, (List.rotate_perm _ _).count_eq]
  exact List.count_eq_one_of_mem hnd hc

theorem count_rrCycles (a0 : Candidate) (rest : List Candidate) (i : Nat)
    (c : Candidate) (q : Nat) (hnd : (a0 :: rest).Nodup) (hc : c ∈ a0 :: rest) :
    ((List.range (q * (a0 :: rest).length)).map
        (fun k => (a0 :: rest).getD ((i + k) % (a0 :: rest).length) a0)).count c
      = q := by
  induction q with
  | zero => simp
  | succ q ihq =>
    rw [show (q + 1) * (a0 :: rest).length
        = (a0 :: rest).length + q * (a0 :: rest).length from by ring]
    rw [List.range_add, List.map_append, List.count_append,
      count_rrWindow a0 rest i c hnd hc, List.map_map]
    have hfun : ((fun k => (a0 :: rest).getD ((i + k) % (a0 :: rest).length) a0)
          ∘ ((a0 :: rest).length + ·))
        = (fun k => (a0 :: rest).getD
            ((i + ((a0 :: rest).length + k)) % (a0 :: rest).length) a0) := rfl
    rw [hfun]
    have hshift : List.map (fun k => (a0 :: rest).getD
          ((i + ((a0 :: rest).length + k)) % (a0 :: rest).length) a0)
          (List.range (q * (a0 :: rest).length))
        = List.map (fun k => (a0 :: rest).getD
            ((i + k) % (a0 :: rest).length) a0)
          (List.range (q * (a0 :: rest).length)) := by
      apply List.map_congr_left
      intro k _
      have harg : i + ((a0 :: rest).length + k)
          = i + k + (a0 :: rest).length := by omega
      rw [harg, Nat.add_mod_right]
    rw [hshift, ihq]
    omega

theorem count_some_map (l : List Candidate) (c : Candidate) :
    (l.map some).count (some c) = l.count c := by
  induction l with
  | nil => rfl
  | cons x t ih =>
    by_cases hx : x = c <;> simp [hx, ih, List.count_cons]

/-- C9: over a non-empty duplicate-free candidate list of length M, any
q·M consecutive round-robin `assign_task` calls with no completions in
between select, at call k, the candidate at index (start + k) mod M — the
cyclic order of the list — and hence select each candidate exactly q times. -/
theorem round_robin_fair (lb : LoadBalancer) (a0 : Candidate)
    (rest : List Candidate) (tids : List String) (now : Int) (q : Nat)
    (hnd : (a0 :: rest).Nodup)
    (hlen : tids.length = q * (a0 :: rest).length) :
    (assignSeq lb (a0 :: rest) now tids).1
      = (List.range tids.length).map
          (fun k => some ((a0 :: rest).getD
              ((lb.round_robin_index + k) % (a0 :: rest).length) a0)) ∧
    (∀ c ∈ a0 :: rest,
      ((assignSeq lb (a0 :: rest) now tids).1).count (some c) = q) := by
  refine ⟨assignSeq_selections a0 rest now tids lb, ?_⟩
  intro c hc
  rw [assignSeq_selections a0 rest now tids lb, hlen]
  have hcomp : (fun k => some ((a0 :: rest).getD
        ((lb.round_robin_index + k) % (a0 :: rest).length) a0))
      = some ∘ (fun k => (a0 :: rest).getD
          ((lb.round_robin_index + k) % (a0 :: rest).length) a0) := rfl
  rw [hcomp, ← List.map_map, count_some_map]
  exact count_rrCycles a0 rest lb.round_robin_index c q hnd hc

/-- Witness for `round_robin_fair`: four round-robin assignments over two
distinct candidates select each exactly twice. -/
theorem round_robin_fair_witness :
    (([{ agent_id := "x" }, { agent_id := "y" }] : List Candidate).Nodup ∧
      (["t1", "t2", "t3", "t4"] : List String).length
        = 2 * ([{ agent_id := "x" }, { agent_id := "y" }] : List Candidate).length) ∧
    (∀ c ∈ ([{ agent_id := "x" }, { agent_id := "y" }] : List Candidate),
      ((assignSeq initLoadBalancer [{ agent_id := "x" }, { agent_id := "y" }] 0
          ["t1", "t2", "t3", "t4"]).1).count (some c) = 2) :=
  ⟨⟨by decide, rfl⟩,
   (round_robin_fair initLoadBalancer { agent_id := "x" } [{ agent_id := "y" }]
     ["t1", "t2", "t3", "t4"] 0 2 (by decide) rfl).2⟩

/-! ## RPC server (`src/mind/distributed/rpc_server.py`)

Claim C3.  The raw request text is embedded as the outcome of `json.loads`:
`none` for a `JSONDecodeError`, otherwise the parsed JSON value.  A registered
handler is an arbitrary callable, so its behaviour on the supplied params —
return a value, raise `TypeError` (which `**params` on a non-dict also does),
or raise anything else — is the handler function of the model.  `time.time()`
readings are summarised by the measured duration `elapsed`; `uuid.uuid4()`
default request ids arrive as `fresh_id`.  Error message texts are modelled by
their fixed prefixes.  The call log (`call_history` insert plus the jsonl
append in `_save_call`, which add exactly one record together) is embedded as
one append-only list.  The result type is `Except`: `.error` models the one
path where `handle_request` raises instead of returning — hashing an
unhashable (truthy list/dict) method value in `method not in self.methods`,
which sits outside the try block. -/

/-- A JSON value as produced by `json.loads`. -/
inductive Json where
  | null
  | bool (b : Bool)
  | num (n : Int)
  | str (s : String)
  | arr (xs : List Json)
  | obj (fields : List (String × Json))

/-- Python truthiness of a JSON value (`if not method`). -/
def jsonFalsy : Json → Bool
  | .null => true
  | .bool b => !b
  | .num n => n = 0
  | .str s => s = ""
  | .arr xs => xs.isEmpty
  | .obj fs => fs.isEmpty

/-- Whether an optional JSON value equals a given string
(`req_dict.get("jsonrpc") != "2.0"` negated). -/
def isJsonStr : Option Json → String → Bool
  | some (.str t), s => t = s
  | _, _ => false

/-- `request_id or ""` on an optional id. -/
def idOrEmpty : Option Json → Json
  | none => .str ""
  | some v => if jsonFalsy v then .str "" else v

/-- Outcome of calling `self.methods[method](**params)`. -/
inductive HandlerResult where
  | ok (v : Json)
  | typeError (msg : String)
  | failure (msg : String)

/-- `RPCCall` dataclass. -/
structure RPCCall where
  request_id : Json
  method : String
  agent_id : String
  timestamp : Int
  execution_time : Rat
  success : Bool
  error : Option String := none

/-- `RPCResponse` dataclass (`to_dict`/`json.dumps` serialization is outside
the model). -/
structure RPCResponse where
  jsonrpc : String := "2.0"
  result : Option Json := none
  error : Option (Int × String) := none
  id : Json := .str ""

/-- `RPCServer` object state. -/
structure RPCServer where
  agent_id : String
  methods : List (String × (Json → HandlerResult)) := []
  call_history : List RPCCall := []

/-- Fresh `RPCServer` (no persisted call history). -/
def initRPCServer (agent_id : String) : RPCServer :=
  { agent_id := agent_id }

/-- `RPCServer.register_method`. -/
def registerMethod (srv : RPCServer) (name : String)
    (handler : Json → HandlerResult) : RPCServer :=
  { srv with methods := setA srv.methods name handler }

/-- `RPCServer._error_response`. -/
def errorResponse (request_id : Option Json) (code : Int) (message : String) :
    RPCResponse :=
  { error := some (code, message), id := idOrEmpty request_id }

/-- The membership test `method not in self.methods`.  Python hashes the key
first, so a list or dict method value raises `TypeError: unhashable type`
before membership is decided — uncaught, since the try block starts only at
dispatch; any other non-string value is hashable but never a key of the
string-keyed routing table. -/
def methodLookup (srv : RPCServer) :
    Option Json → Except String (Option (String × (Json → HandlerResult)))
  | some (.str s) => .ok ((getA srv.methods s).map (fun h => (s, h)))
  | some (.arr _) => .error "TypeError: unhashable type: list"
  | some (.obj _) => .error "TypeError: unhashable type: dict"
  | _ => .ok none

/-- `RPCServer.handle_request`.  `Except.ok` is a returned response string
(modulo serialization); `Except.error` is the call raising out of
`handle_request` — the uncaught `TypeError` that `method not in self.methods`
produces for an unhashable (truthy list/dict) method value. -/
def handleRequest (srv : RPCServer) (input : Option Json) (fresh_id : String)
    (now : Int) (elapsed : Rat) : Except String RPCResponse × RPCServer :=
  match input with
  | none => (.ok (errorResponse none (-32700) "Parse error"), srv)
  | some (.obj fields) =>
    if ¬isJsonStr (getA fields "jsonrpc") "2.0" then
      (.ok (errorResponse (getA fields "id") (-32600)
        "Invalid Request: invalid jsonrpc"), srv)
    else if (match getA fields "method" with
             | none => true
             | some m => jsonFalsy m) then
      (.ok (errorResponse (getA fields "id") (-32600) "Invalid Request: no method"),
       srv)
    else
      match methodLookup srv (getA fields "method") with
      | .error e => (.error e, srv)
      | .ok none =>
        (.ok (errorResponse (getA fields "id") (-32601) "Method not found"), srv)
      | .ok (some (name, handler)) =>
        let params := (getA fields "params").getD (.obj [])
        let request_id := (getA fields "id").getD (.str fresh_id)
        match handler params with
        | .ok result =>
          let call : RPCCall :=
            { request_id := request_id, method := name, agent_id := srv.agent_id,
              timestamp := now, execution_time := elapsed, success := true }
          (.ok { result := some result, id := request_id },
           { srv with call_history := srv.call_history ++ [call] })
        | .typeError msg =>
          let emsg := "Invalid params: " ++ msg
          let call : RPCCall :=
            { request_id := request_id, method := name, agent_id := srv.agent_id,
              timestamp := now, execution_time := elapsed, success := false,
              error := some emsg }
          (.ok (errorResponse (some request_id) (-32602) emsg),
           { srv with call_history := srv.call_history ++ [call] })
        | .failure msg =>
          let emsg := "Server error: " ++ msg
          let call : RPCCall :=
            { request_id := request_id, method := name, agent_id := srv.agent_id,
              timestamp := now, execution_time := elapsed, success := false,
              error := some emsg }
          (.ok (errorResponse (some request_id) (-32603) emsg),
           { srv with call_history := srv.call_history ++ [call] })
  | some _ => (.ok (errorResponse none (-32600) "Invalid Request: not a dict"), srv)

/-- Whether a request gets past parsing, envelope validation and method
lookup, i.e. reaches the dispatch block that records a call. -/
def reachesDispatch (srv : RPCServer) (input : Option Json) : Bool :=
  match input with
  | none => false
  | some (.obj fields) =>
    isJsonStr (getA fields "jsonrpc") "2.0" &&
    !(match getA fields "method" with
      | none => true
      | some m => jsonFalsy m) &&
    (match getA fields "method" with
     | some (.str s) => (getA srv.methods s).isSome
     | _ => false)
  | some _ => false

/-- Whether a request reaches the membership test carrying an unhashable
(truthy list/dict) method value, making `handle_request` raise. -/
def raisesUnhashable (input : Option Json) : Bool :=
  match input with
  | some (.obj fields) =>
    isJsonStr (getA fields "jsonrpc") "2.0" &&
    !(match getA fields "method" with
      | none => true
      | some m => jsonFalsy m) &&
    (match getA fields "method" with
     | some (.arr _) => true
     | some (.obj _) => true
     | _ => false)
  | _ => false

theorem handleRequest_not_dispatched (srv : RPCServer) (input : Option Json)
    (fresh_id : String) (now : Int) (elapsed : Rat)
    (h : reachesDispatch srv input = false)
    (hr : raisesUnhashable input = false) :
    (handleRequest srv input fresh_id now elapsed).2 = srv ∧
    ∃ resp code msg,
      (handleRequest srv input fresh_id now elapsed).1 = Except.ok resp ∧
      resp.error = some (code, msg) ∧
      (code = -32700 ∨ code = -32600 ∨ code = -32601) := by
  cases input with
  | none => exact ⟨rfl, ⟨_, -32700, "Parse error", rfl, rfl, Or.inl rfl⟩⟩
  | some j =>
    cases j with
    | null => exact ⟨rfl, ⟨_, -32600, _, rfl, rfl, Or.inr (Or.inl rfl)⟩⟩
    | bool b => exact ⟨rfl, ⟨_, -32600, _, rfl, rfl, Or.inr (Or.inl rfl)⟩⟩
    | num n => exact ⟨rfl, ⟨_, -32600, _, rfl, rfl, Or.inr (Or.inl rfl)⟩⟩
    | str s => exact ⟨rfl, ⟨_, -32600, _, rfl, rfl, Or.inr (Or.inl rfl)⟩⟩
    | arr xs => exact ⟨rfl, ⟨_, -32600, _, rfl, rfl, Or.inr (Or.inl rfl)⟩⟩
    | obj fields =>
      by_cases h1 : isJsonStr (getA fields "jsonrpc") "2.0" = true
      · by_cases h2 : (match getA fields "method" with
            | none => true
            | some m => jsonFalsy m) = true
        · have heq : handleRequest srv (some (.obj fields)) fresh_id now elapsed
              = (.ok (errorResponse (getA fields "id") (-32600)
                  "Invalid Request: no method"), srv) := by
            simp [handleRequest, h1, h2]
          rw [heq]
          exact ⟨rfl, ⟨_, -32600, _, rfl, rfl, Or.inr (Or.inl rfl)⟩⟩
        · have h2m : (match getA fields "method" with
              | none => true
              | some m => jsonFalsy m) = false := by simpa using h2
          cases hm : getA fields "method" with
          | none => exact absurd (by rw [hm]) h2
          | some m =>
            have h2f : jsonFalsy m = false := by rw [hm] at h2m; exact h2m
            cases m with
            | str s =>
              cases hs : getA srv.methods s with
              | none =>
                have heq : handleRequest srv (some (.obj fields)) fresh_id now elapsed
                    = (.ok (errorResponse (getA fields "id") (-32601)
                        "Method not found"), srv) := by
                  simp [handleRequest, methodLookup, h1, h2f, hm, hs]
                rw [heq]
                exact ⟨rfl, ⟨_, -32601, _, rfl, rfl, Or.inr (Or.inr rfl)⟩⟩
              | some handler =>
                exfalso
                have hrt : reachesDispatch srv (some (.obj fields)) = true := by
                  simp [reachesDispatch, h1, hm, hs, h2f]
                rw [hrt] at h
                exact Bool.noConfusion h
            | null => exact Bool.noConfusion h2f
            | bool b =>
              have heq : handleRequest srv (some (.obj fields)) fresh_id now elapsed
                  = (.ok (errorResponse (getA fields "id") (-32601)
                      "Method not found"), srv) := by
                simp [handleRequest, methodLookup, h1, h2f, hm]
              rw [heq]
              exact ⟨rfl, ⟨_, -32601, _, rfl, rfl, Or.inr (Or.inr rfl)⟩⟩
            | num n =>
              have heq : handleRequest srv (some (.obj fields)) fresh_id now elapsed
                  = (.ok (errorResponse (getA fields "id") (-32601)
                      "Method not found"), srv) := by
                simp [handleRequest, methodLookup, h1, h2f, hm]
              rw [heq]
              exact ⟨rfl, ⟨_, -32601, _, rfl, rfl, Or.inr (Or.inr rfl)⟩⟩
            | arr xs =>
              exfalso
              have hru : raisesUnhashable (some (.obj fields)) = true := by
                simp [raisesUnhashable, h1, hm, h2f]
              rw [hru] at hr
              exact Bool.noConfusion hr
            | obj fs =>
              exfalso
              have hru : raisesUnhashable (some (.obj fields)) = true := by
                simp [raisesUnhashable, h1, hm, h2f]
              rw [hru] at hr
              exact Bool.noConfusion hr
      · have heq : handleRequest srv (some (.obj fields)) fresh_id now elapsed
            = (.ok (errorResponse (getA fields "id") (-32600)
                "Invalid Request: invalid jsonrpc"), srv) := by
          simp [handleRequest, h1]
        rw [heq]
        exact ⟨rfl, ⟨_, -32600, _, rfl, rfl, Or.inr (Or.inl rfl)⟩⟩

theorem handleRequest_dispatched (srv : RPCServer) (input : Option Json)
    (fresh_id : String) (now : Int) (elapsed : Rat)
    (h : reachesDispatch srv input = true) :
    ∃ call, (handleRequest srv input fresh_id now elapsed).2.call_history
        = srv.call_history ++ [call] ∧ call.execution_time = elapsed := by
  cases input with
  | none => exact Bool.noConfusion h
  | some j =>
    cases j with
    | null => exact Bool.noConfusion h
    | bool b => exact Bool.noConfusion h
    | num n => exact Bool.noConfusion h
    | str s => exact Bool.noConfusion h
    | arr xs => exact Bool.noConfusion h
    | obj fields =>
      have h' : (isJsonStr (getA fields "jsonrpc") "2.0"
            && !(match getA fields "method" with
                 | none => true
                 | some m => jsonFalsy m)
            && (match getA fields "method" with
                | some (.str s) => (getA srv.methods s).isSome
                | _ => false)) = true := h
      rw [Bool.and_eq_true, Bool.and_eq_true] at h'
      obtain ⟨⟨h1, h2⟩, h3⟩ := h'
      have h2m : (match getA fields "method" with
          | none => true
          | some m => jsonFalsy m) = false := by
        cases hb : (match getA fields "method" with
            | none => true
            | some m => jsonFalsy m) with
        | false => rfl
        | true => rw [hb] at h2; exact Bool.noConfusion h2
      cases hm : getA fields "method" with
      | none => rw [hm] at h3; exact Bool.noConfusion h3
      | some m =>
        cases m with
        | null => rw [hm] at h3; exact Bool.noConfusion h3
        | bool b => rw [hm] at h3; exact Bool.noConfusion h3
        | num n => rw [hm] at h3; exact Bool.noConfusion h3
        | arr xs => rw [hm] at h3; exact Bool.noConfusion h3
        | obj fs => rw [hm] at h3; exact Bool.noConfusion h3
        | str s =>
          have h3s : (getA srv.methods s).isSome = true := by
            rw [hm] at h3; exact h3
          have h2f : jsonFalsy (Json.str s) = false := by
            rw [hm] at h2m; exact h2m
          cases hs : getA srv.methods s with
          | none => rw [hs] at h3s; exact Bool.noConfusion h3s
          | some handler =>
            cases hp : handler ((getA fields "params").getD (.obj [])) with
            | ok v =>
              refine ⟨{ request_id := (getA fields "id").getD (.str fresh_id),
                        method := s, agent_id := srv.agent_id, timestamp := now,
                        execution_time := elapsed, success := true }, ?_, rfl⟩
              simp [handleRequest, methodLookup, h1, h2m, h2f, hm, hs, hp]
            | typeError msg =>
              refine ⟨{ request_id := (getA fields "id").getD (.str fresh_id),
                        method := s, agent_id := srv.agent_id, timestamp := now,
                        execution_time := elapsed, success := false,
                        error := some ("Invalid params: " ++ msg) }, ?_, rfl⟩
              simp [handleRequest, methodLookup, h1, h2m, h2f, hm, hs, hp]
            | failure msg =>
              refine ⟨{ request_id := (getA fields "id").getD (.str fresh_id),
                        method := s, agent_id := srv.agent_id, timestamp := now,
                        execution_time := elapsed, success := false,
                        error := some ("Server error: " ++ msg) }, ?_, rfl⟩
              simp [handleRequest, methodLookup, h1, h2m, h2f, hm, hs, hp]

theorem handleRequest_raises (srv : RPCServer) (input : Option Json)
    (fresh_id : String) (now : Int) (elapsed : Rat)
    (h : raisesUnhashable input = true) :
    (handleRequest srv input fresh_id now elapsed).2 = srv ∧
    ∃ msg, (handleRequest srv input fresh_id now elapsed).1 = Except.error msg := by
  cases input with
  | none => exact Bool.noConfusion h
  | some j =>
    cases j with
    | null => exact Bool.noConfusion h
    | bool b => exact Bool.noConfusion h
    | num n => exact Bool.noConfusion h
    | str s => exact Bool.noConfusion h
    | arr xs => exact Bool.noConfusion h
    | obj fields =>
      have h' : (isJsonStr (getA fields "jsonrpc") "2.0"
            && !(match getA fields "method" with
                 | none => true
                 | some m => jsonFalsy m)
            && (match getA fields "method" with
                | some (.arr _) => true
                | some (.obj _) => true
                | _ => false)) = true := h
      rw [Bool.and_eq_true, Bool.and_eq_true] at h'
      obtain ⟨⟨h1, h2⟩, h3⟩ := h'
      have h2m : (match getA fields "method" with
          | none => true
          | some m => jsonFalsy m) = false := by
        cases hb : (match getA fields "method" with
            | none => true
            | some m => jsonFalsy m) with
        | false => rfl
        | true => rw [hb] at h2; exact Bool.noConfusion h2
      cases hm : getA fields "method" with
      | none => rw [hm] at h3; exact Bool.noConfusion h3
      | some m =>
        have h2f : jsonFalsy m = false := by rw [hm] at h2m; exact h2m
        cases m with
        | null => rw [hm] at h3; exact Bool.noConfusion h3
        | bool b => rw [hm] at h3; exact Bool.noConfusion h3
        | num n => rw [hm] at h3; exact Bool.noConfusion h3
        | str s => rw [hm] at h3; exact Bool.noConfusion h3
        | arr xs =>
          have heq : handleRequest srv (some (.obj fields)) fresh_id now elapsed
              = (.error "TypeError: unhashable type: list", srv) := by
            simp [handleRequest, methodLookup, h1, h2f, hm]
          rw [heq]
          exact ⟨rfl, "TypeError: unhashable type: list", rfl⟩
        | obj fs =>
          have heq : handleRequest srv (some (.obj fields)) fresh_id now elapsed
              = (.error "TypeError: unhashable type: dict", srv) := by
            simp [handleRequest, methodLookup, h1, h2f, hm]
          rw [heq]
          exact ⟨rfl, "TypeError: unhashable type: dict", rfl⟩

/-- C3 (amended): `handle_request` appends exactly one record — carrying the
measured elapsed duration — to the call log when and only when the request
reaches dispatch (valid envelope and registered method, i.e. the success,
invalid-params −32602 and handler-fault −32603 outcomes).  Attempts that fail
before dispatch append nothing: they return parse error (−32700), invalid
envelope (−32600) or method not found (−32601) — except that a well-formed
envelope whose method value is a truthy JSON array or object makes the
membership test hash an unhashable key, so `handle_request` raises an
uncaught `TypeError` and returns no response at all (still appending
nothing). -/
theorem handle_request_call_log (srv : RPCServer) (input : Option Json)
    (fresh_id : String) (now : Int) (elapsed : Rat) :
    ((handleRequest srv input fresh_id now elapsed).2.call_history.length
      = srv.call_history.length
        + (if reachesDispatch srv input then 1 else 0)) ∧
    (reachesDispatch srv input = true →
      ∃ call, (handleRequest srv input fresh_id now elapsed).2.call_history
          = srv.call_history ++ [call] ∧ call.execution_time = elapsed) ∧
    (reachesDispatch srv input = false → raisesUnhashable input = false →
      (handleRequest srv input fresh_id now elapsed).2 = srv ∧
      ∃ resp code msg,
        (handleRequest srv input fresh_id now elapsed).1 = Except.ok resp ∧
        resp.error = some (code, msg) ∧
        (code = -32700 ∨ code = -32600 ∨ code = -32601)) ∧
    (raisesUnhashable input = true →
      (handleRequest srv input fresh_id now elapsed).2 = srv ∧
      ∃ msg, (handleRequest srv input fresh_id now elapsed).1
          = Except.error msg) := by
  refine ⟨?_, handleRequest_dispatched srv input fresh_id now elapsed,
    handleRequest_not_dispatched srv input fresh_id now elapsed,
    handleRequest_raises srv input fresh_id now elapsed⟩
  cases hreach : reachesDispatch srv input with
  | true =>
    obtain ⟨call, hcall, -⟩ :=
      handleRequest_dispatched srv input fresh_id now elapsed hreach
    simp [hcall]
  | false =>
    cases hraise : raisesUnhashable input with
    | true =>
      obtain ⟨hsame, -⟩ :=
        handleRequest_raises srv input fresh_id now elapsed hraise
      simp [hsame]
    | false =>
      obtain ⟨hsame, -⟩ :=
        handleRequest_not_dispatched srv input fresh_id now elapsed hreach hraise
      simp [hsame]

/-- A server with one registered method "add". -/
def srvAdd : RPCServer :=
  registerMethod (initRPCServer "me") "add" (fun _ => .ok (.num 8))

/-- A well-formed request for the registered method "add". -/
def reqAdd : Option Json :=
  some (.obj [("jsonrpc", .str "2.0"), ("method", .str "add"), ("id", .str "1")])

/-- A well-formed request for the unregistered method "sub". -/
def reqSub : Option Json :=
  some (.obj [("jsonrpc", .str "2.0"), ("method", .str "sub"), ("id", .str "1")])

/-- A well-formed envelope whose method value is a non-empty JSON array. -/
def reqArrMethod : Option Json :=
  some (.obj [("jsonrpc", .str "2.0"), ("method", .arr [.num 1]),
    ("id", .str "1")])

/-- Witness for `handle_request_call_log`: the "add" request appends one
record with the measured duration; the unregistered "sub" request leaves the
server unchanged; the array-method request makes the call raise. -/
theorem handle_request_call_log_witness :
    (∃ call, (handleRequest srvAdd reqAdd "u1" 0 (1 / 2)).2.call_history
        = srvAdd.call_history ++ [call] ∧ call.execution_time = 1 / 2) ∧
    (handleRequest srvAdd reqSub "u1" 0 (1 / 2)).2 = srvAdd ∧
    (∃ msg, (handleRequest srvAdd reqArrMethod "u1" 0 (1 / 2)).1
        = Except.error msg) := by
  have hd := handle_request_call_log srvAdd reqAdd "u1" 0 (1 / 2)
  have hn := handle_request_call_log srvAdd reqSub "u1" 0 (1 / 2)
  have hu := handle_request_call_log srvAdd reqArrMethod "u1" 0 (1 / 2)
  exact ⟨hd.2.1 rfl, (hn.2.2.1 rfl rfl).1, (hu.2.2.2 rfl).2⟩

/-- Counterexample to C3 as stated: a malformed payload is answered with
−32700 but no record is appended to the call log (likewise the −32600 and
−32601 paths, and the raising unhashable-method path, all finish before the
recording block). -/
theorem handle_request_parse_error_not_logged :
    (handleRequest (initRPCServer "me") none "u1" 0 1).1
      = Except.ok (errorResponse none (-32700) "Parse error") ∧
    (handleRequest (initRPCServer "me") none "u1" 0 1).2.call_history = [] :=
  ⟨rfl, rfl⟩

end Mind
